import Mathlib

/-!
The text editor tool (`internal/resource/tools/text_editor/text_editor.go`).

A shallow embedding of the editor: the dispatcher `editText` and the handlers `view`,
`write`, `str_replace` and `undo_edit`.
The editor value carries the history map; the file system the handlers talk to through
`os.Stat`, `os.ReadFile` and `os.WriteFile` is an explicit value that is passed in and
returned.  A handler is run to completion before the next one starts; calls of `write`
that run at the same time are treated step by step in a section of their own, where the
mutex makes the append to the history one step.

Go strings are byte sequences, so `GoString` is `List UInt8`; the library functions the
handlers call (`strings.Count`, `strings.Index`, `strings.Replace`, `strings.Split`, ...)
are written out after the Go standard library.
-/

set_option autoImplicit false

namespace texteditor

/-! ## Go strings -/

/-- A Go string: an immutable sequence of bytes. -/
abbrev GoString := List UInt8

/-- The bytes (UTF-8) of a string literal of the source. -/
def bytes (s : String) : GoString := s.data.flatMap String.utf8EncodeChar

/-! ## unicode/utf8 -/

namespace utf8

/-- The table `first` of unicode/utf8: information about the first byte of a sequence.
The low three bits are the length of the sequence, the high four bits select the accept
range of the second byte; `0xF1` marks an invalid first byte, `0xF0` an ASCII byte. -/
def first (c : UInt8) : Nat :=
  if c < 0x80 then 0xF0
  else if c < 0xC2 then 0xF1
  else if c < 0xE0 then 0x02
  else if c = 0xE0 then 0x13
  else if c < 0xED then 0x03
  else if c = 0xED then 0x23
  else if c < 0xF0 then 0x03
  else if c = 0xF0 then 0x34
  else if c < 0xF4 then 0x04
  else if c = 0xF4 then 0x44
  else 0xF1

/-- The table `acceptRanges` of unicode/utf8: lowest and highest accepted second byte. -/
def acceptRanges (i : Nat) : UInt8 × UInt8 :=
  match i with
  | 0 => (0x80, 0xBF)
  | 1 => (0xA0, 0xBF)
  | 2 => (0x80, 0x9F)
  | 3 => (0x90, 0xBF)
  | 4 => (0x80, 0x8F)
  | _ => (0, 0)

/-- The number of bytes one turn of the loop of `RuneCountInString` advances over at the
start of `s` (also the width `DecodeRuneInString` reports): the length of a well-formed
UTF-8 sequence, and 1 for an ASCII byte and for an invalid or cut-off sequence. -/
def runeWidth (s : GoString) : Nat :=
  match s with
  | [] => 0
  | c :: _ =>
    if c < 0x80 then 1
    else
      let x := first c
      if x = 0xF1 then 1
      else
        let size := x % 8
        if size > s.length then 1
        else
          let accept := acceptRanges (x / 16)
          let c1 := s.getD 1 0
          if c1 < accept.1 || accept.2 < c1 then 1
          else if size = 2 then 2
          else
            let c2 := s.getD 2 0
            if c2 < 0x80 || 0xBF < c2 then 1
            else if size = 3 then 3
            else
              let c3 := s.getD 3 0
              if c3 < 0x80 || 0xBF < c3 then 1
              else size

/-- The loop of `RuneCountInString`: `s` is what is left from index `i` on, `n` the
count so far. Every turn takes at least one byte, so `s.length` turns are enough. -/
def runeCountLoop : Nat → GoString → Nat → Nat
  | 0, _, n => n
  | _ + 1, [], n => n
  | fuel + 1, c :: cs, n => runeCountLoop fuel ((c :: cs).drop (runeWidth (c :: cs))) (n + 1)

/-- `utf8.RuneCountInString`: the number of runes in `s`, an invalid byte counting as
one rune of width 1. -/
def RuneCountInString (s : GoString) : Nat := runeCountLoop s.length s 0

end utf8

/-! ## strings -/

namespace strings

/-- The offset of the first instance of `substr` in `s`, if there is one. -/
def firstIndex (substr : GoString) : GoString → Option Nat
  | [] => if substr = [] then some 0 else none
  | c :: cs =>
    if substr.isPrefixOf (c :: cs) then some 0
    else (firstIndex substr cs).map (· + 1)

/-- `strings.Index`: the index of the first instance of `substr` in `s`, or -1. -/
def Index (s substr : GoString) : Int :=
  match firstIndex substr s with
  | some i => (i : Int)
  | none => -1

/-- The loop of `strings.Count` for a separator of two or more bytes: look for the next
instance, count it, and go on behind it. Every turn that finds an instance takes at least
one byte, so `s.length + 1` turns are enough. -/
def countLoop (substr : GoString) : Nat → GoString → Nat → Nat
  | 0, _, n => n
  | fuel + 1, s, n =>
    match firstIndex substr s with
    | none => n
    | some i => countLoop substr fuel (s.drop (i + substr.length)) (n + 1)

/-- `strings.Count`: the number of non-overlapping instances of `substr` in `s`; for
the empty `substr` it is 1 + the number of runes of `s`. -/
def Count (s substr : GoString) : Nat :=
  match substr with
  | [] => utf8.RuneCountInString s + 1
  | [c] => s.count c
  | _ => countLoop substr (s.length + 1) s 0

/-- The loop of `strings.Replace`: `k` replacements are still to be made in `rest`
(the string from `start` on); `i0` says that this is the first turn (`i = 0`). -/
def replaceLoop (old new : GoString) : Nat → Bool → GoString → GoString
  | 0, _, rest => rest
  | k + 1, i0, rest =>
    if old = [] then
      let j := if i0 then 0 else utf8.runeWidth rest
      rest.take j ++ new ++ replaceLoop old new k false (rest.drop j)
    else
      match firstIndex old rest with
      | some j => rest.take j ++ new ++ replaceLoop old new k false (rest.drop (j + old.length))
      | none => rest -- not reached: `Count` has found at least `k + 1` instances

/-- `strings.Replace`: a copy of `s` with the first `n` non-overlapping instances of
`old` replaced by `new` (all of them if `n < 0`). -/
def Replace (s old new : GoString) (n : Int) : GoString :=
  if old = new ∨ n = 0 then s
  else
    let m := Count s old
    if m = 0 then s
    else
      let n := if n < 0 ∨ (m : Int) < n then m else n.toNat
      replaceLoop old new n true s

/-- The function `explode` of strings: `s` cut into its UTF-8 sequences. -/
def explode : Nat → GoString → List GoString
  | 0, _ => []
  | _ + 1, [] => []
  | fuel + 1, c :: cs =>
    let w := utf8.runeWidth (c :: cs)
    (c :: cs).take w :: explode fuel ((c :: cs).drop w)

/-- The loop of `genSplit`: at most `n` more cuts. -/
def splitLoop (sep : GoString) : Nat → GoString → List GoString
  | 0, s => [s]
  | n + 1, s =>
    match firstIndex sep s with
    | none => [s]
    | some m => s.take m :: splitLoop sep n (s.drop (m + sep.length))

/-- `strings.Split`: `s` cut at every instance of `sep` (`genSplit s sep 0 (-1)`). -/
def Split (s sep : GoString) : List GoString :=
  if sep = [] then explode s.length s
  else splitLoop sep (min (Count s sep + 1) (s.length + 1) - 1) s

/-- `strings.Join`. -/
def Join (elems : List GoString) (sep : GoString) : GoString :=
  match elems with
  | [] => []
  | [e] => e
  | e :: es => e ++ sep ++ Join es sep

/-- `strings.TrimPrefix`. -/
def TrimPrefix (s pre : GoString) : GoString :=
  if pre.isPrefixOf s then s.drop pre.length else s

end strings

/-! ## path/filepath -/

namespace filepath

/-- The loop of `filepath.Ext`, from the last byte backwards: `acc` is what has been
walked over. -/
def extLoop : GoString → GoString → GoString
  | [], _ => []
  | c :: cs, acc =>
    if c = 0x2F then []
    else if c = 0x2E then c :: acc
    else extLoop cs (c :: acc)

/-- `filepath.Ext`: the suffix beginning at the final dot in the final element of the
path; empty if there is no dot. The separator is `/`. -/
def Ext (path : GoString) : GoString := extLoop path.reverse []

end filepath

/-! ## The file system behind package os -/

/-- What a path names: a regular file with its content, or a directory. -/
inductive Node where
  | file (content : GoString)
  | dir
  deriving DecidableEq

/-- The file system the handlers run against. Several paths can lead to one file (`f`
and `./f`, a link and the file it points to): `target` gives, for a path as it is passed
to package os, the name under which the file it leads to is kept, and `files` says what
is kept under each such name. `readFault` and `writeFault` give, for a path, the text of
the error with which reading an existing file, respectively opening the path for
writing, fails there (permissions, a missing parent directory, an error of the device),
and `none` when it works. -/
structure FileSystem where
  target : GoString → GoString
  files : GoString → Option Node
  readFault : GoString → Option GoString
  writeFault : GoString → Option GoString

/-- What a path names: what is kept under the name the path leads to. -/
def FileSystem.nodes (fs : FileSystem) (path : GoString) : Option Node :=
  fs.files (fs.target path)

/-- The part of `os.FileInfo` the handlers look at: `IsDir()` and `Size()`. -/
structure FileInfo where
  isDir : Bool
  size : Nat
  deriving DecidableEq

/-- The file system in which the file `name` leads to is a regular file holding `data`
and everything else is as in `fs`. -/
def FileSystem.store (fs : FileSystem) (name : GoString) (data : GoString) : FileSystem :=
  { fs with
    files := fun c => if c = fs.target name then some (Node.file data) else fs.files c }

namespace os

/-- `os.Stat`: the description of what `name` names, an error if nothing is there. -/
def Stat (fs : FileSystem) (name : GoString) : Except GoString FileInfo :=
  match fs.nodes name with
  | none => .error (bytes "stat " ++ name ++ bytes ": no such file or directory")
  | some Node.dir => .ok { isDir := true, size := 0 }
  | some (Node.file content) => .ok { isDir := false, size := content.length }

/-- `os.ReadFile`: the whole content of the file `name`, or an error. -/
def ReadFile (fs : FileSystem) (name : GoString) : Except GoString GoString :=
  match fs.nodes name with
  | none => .error (bytes "open " ++ name ++ bytes ": no such file or directory")
  | some Node.dir => .error (bytes "read " ++ name ++ bytes ": is a directory")
  | some (Node.file content) =>
    match fs.readFault name with
    | some err => .error err
    | none => .ok content

/-- `os.WriteFile`: `name` is created if nothing is there, truncated otherwise, and
holds exactly `data` afterwards. A failure is a failure to open the path and leaves the
file system as it was. -/
def WriteFile (fs : FileSystem) (name : GoString) (data : GoString) :
    Except GoString FileSystem :=
  match fs.nodes name with
  | some Node.dir => .error (bytes "open " ++ name ++ bytes ": is a directory")
  | _ =>
    match fs.writeFault name with
    | some err => .error err
    | none => .ok (fs.store name data)

end os

/-! ## The editor -/

/-- The struct `Request`. -/
structure Request where
  Command : GoString := []
  Path : GoString := []
  OldStr : GoString := []
  NewStr : GoString := []
  FileText : GoString := []

/-- The struct `Response`. -/
structure Response where
  FileText : GoString := []
  Message : GoString := []
  deriving DecidableEq

/-- The struct `TextEditor`: the map `fileHistory` from a path to the stack of the
contents the file had before each edit, oldest first. `none` is a key that is not in the
map. -/
structure TextEditor where
  fileHistory : GoString → Option (List GoString)

/-- `newTextEditor`: an editor with an empty history map. -/
def newTextEditor : TextEditor := { fileHistory := fun _ => none }

/-- The Go expression `f.fileHistory[path]`: the stack of `path`, the nil slice for a
key that is not in the map. -/
def TextEditor.history (f : TextEditor) (path : GoString) : List GoString :=
  (f.fileHistory path).getD []

/-- The Go statement `f.fileHistory[path] = stack`. -/
def TextEditor.setHistory (f : TextEditor) (path : GoString) (stack : List GoString) :
    TextEditor :=
  { fileHistory := fun p => if p = path then some stack else f.fileHistory p }

/-- The editor together with the file system it works on. -/
structure State where
  editor : TextEditor
  disk : FileSystem

/-- What a handler returns: `(resp, nil)`, `(nil, err)` with the text of `err`, or a
run-time panic. -/
inductive Result where
  | ok (resp : Response)
  | error (msg : GoString)
  | panic
  deriving DecidableEq

/-- The number of context lines of the snippet, `SNIPPET_LINES`. -/
def SNIPPET_LINES : Int := 4

/-- The error of `strReplace` for more than one instance of `old_str`. -/
def errMultiple : GoString :=
  bytes "'old_str' must appear exactly once in the file, but it appears multiple times"

/-- The error of `strReplace` for no instance of `old_str`. -/
def errNoMatch : GoString :=
  bytes "'old_str' must appear exactly once in the file, but it does not appear in the file. Make sure the string exactly matches existing file content, including whitespace!"

/-- The error of `undoEdit` for a path without history. -/
def errNoHistory (path : GoString) : GoString :=
  bytes "No edit history found for file '" ++ path ++ bytes "'"

/-- The message of a successful `undoEdit`. -/
def msgUndone (path : GoString) : GoString :=
  bytes "The last edit to file '" ++ path ++ bytes "' has been undone."

/-- The message of a successful `write`. -/
def msgWritten (path : GoString) : GoString :=
  bytes "File '" ++ path ++ bytes "' has been written successfully."

/-- The method `write`. -/
def TextEditor.write (st : State) (request : Request) : Result × State :=
  let captured : Except GoString GoString :=
    match os.Stat st.disk request.Path with
    | .ok info => if !info.isDir then os.ReadFile st.disk request.Path else .ok []
    | .error _ => .ok []
  match captured with
  | .error err => (.error (bytes "Failed to read existing file: " ++ err), st)
  | .ok oldContent =>
    match os.WriteFile st.disk request.Path request.FileText with
    | .error err => (.error (bytes "Failed to write file: " ++ err), st)
    | .ok disk1 =>
      let editor1 :=
        if oldContent.length > 0 then
          st.editor.setHistory request.Path (st.editor.history request.Path ++ [oldContent])
        else st.editor
      (.ok { FileText := request.FileText, Message := msgWritten request.Path },
        { editor := editor1, disk := disk1 })

/-- The method `strReplace`. -/
def TextEditor.strReplace (st : State) (request : Request) : Result × State :=
  match os.Stat st.disk request.Path with
  | .error _ =>
    (.error (bytes "File '" ++ request.Path ++
      bytes "' does not exist, you can write a new file with the `write` command"), st)
  | .ok _ =>
    match os.ReadFile st.disk request.Path with
    | .error err => (.error (bytes "Failed to read file: " ++ err), st)
    | .ok content =>
      let count := strings.Count content request.OldStr
      if count > 1 then (.error errMultiple, st)
      else if count = 0 then (.error errNoMatch, st)
      else
        let editor1 :=
          st.editor.setHistory request.Path (st.editor.history request.Path ++ [content])
        let newContent := strings.Replace content request.OldStr request.NewStr 1
        match os.WriteFile st.disk request.Path newContent with
        | .error err =>
          (.error (bytes "Failed to write file: " ++ err), { editor := editor1, disk := st.disk })
        | .ok disk1 =>
          let st1 : State := { editor := editor1, disk := disk1 }
          let ext := filepath.Ext request.Path
          let language := strings.TrimPrefix ext (bytes ".")
          let idx := strings.Index content request.OldStr
          if idx = -1 then (.error (bytes "Unexpected error: oldStr not found"), st1)
          else
            let prefix0 := content.take idx.toNat
            let replacementLine : Int := strings.Count prefix0 (bytes "\n")
            let startLine := replacementLine - SNIPPET_LINES
            let startLine := if startLine < 0 then 0 else startLine
            let newStrLineCount : Int := strings.Count request.NewStr (bytes "\n")
            let endLine := replacementLine + SNIPPET_LINES + newStrLineCount
            let lines := strings.Split newContent (bytes "\n")
            let endLine := if endLine ≥ lines.length then (lines.length : Int) - 1 else endLine
            -- lines[startLine : endLine+1] panics unless the bounds are in range
            if startLine < 0 ∨ endLine + 1 < startLine ∨ (lines.length : Int) < endLine + 1 then
              (.panic, st1)
            else
              let snippetLines := (lines.take (endLine + 1).toNat).drop startLine.toNat
              let snippet := strings.Join snippetLines (bytes "\n")
              let output := bytes "```" ++ language ++ bytes "\n" ++ snippet ++ bytes "\n```"
              let successMessage :=
                bytes "The file " ++ request.Path ++
                  bytes " has been edited, and the section now reads:\n" ++ output ++
                  bytes "\nReview the changes above for errors. Undo and edit the file again if necessary!"
              (.ok { Message := successMessage }, st1)

/-- The method `undoEdit`. -/
def TextEditor.undoEdit (st : State) (request : Request) : Result × State :=
  match st.editor.fileHistory request.Path with
  | none => (.error (errNoHistory request.Path), st)
  | some history =>
    if history.length = 0 then (.error (errNoHistory request.Path), st)
    else
      let lastEdit := history.getD (history.length - 1) []
      match os.WriteFile st.disk request.Path lastEdit with
      | .error err => (.error (bytes "Failed to write file: " ++ err), st)
      | .ok disk1 =>
        (.ok { Message := msgUndone request.Path },
          { editor := st.editor.setHistory request.Path (history.take (history.length - 1)),
            disk := disk1 })


/-- The constant `MAX_FILE_SIZE` of `view`: 400KB. -/
def MAX_FILE_SIZE : Nat := 400 * 1024

/-- The constant `MAX_CHAR_COUNT` of `view`: 400,000 characters. -/
def MAX_CHAR_COUNT : Nat := 400000

/-- The verb `%d` of package fmt for a number that is not negative. -/
def formatInt (n : Nat) : GoString := bytes (Nat.repr n)

/-- The text `%.2f` gives for `float64(size)/1024.0`. For a size below 2^53 the
conversion and the division by a power of two are exact, and the verb prints the exact
quotient rounded to two decimals, a tie going to the even digit. -/
def formatKB (size : Nat) : GoString :=
  let q := size / 1024
  let r := size % 1024
  let h := r * 100 / 1024
  let m := r * 100 % 1024
  let t := q * 100 + h + (if m > 512 ∨ (m = 512 ∧ h % 2 = 1) then 1 else 0)
  formatInt (t / 100) ++ bytes "." ++ formatInt (t % 100 / 10) ++ formatInt (t % 10)

/-- The error of `view` for a path at which nothing is. -/
def errNotFound (path : GoString) : GoString :=
  bytes "The request.Path '" ++ path ++ bytes "' does not exist or is not a file."

/-- The error of `view` for a directory. -/
def errNotFile (path : GoString) : GoString :=
  bytes "The request.Path '" ++ path ++ bytes "' is not a file."

/-- The error of `view` for a file of more than `MAX_FILE_SIZE` bytes. -/
def errTooLarge (path : GoString) (size : Nat) : GoString :=
  bytes "File '" ++ path ++ bytes "' is too large (" ++ formatKB size ++
    bytes "KB). Maximum size is 400KB to prevent memory issues."

/-- The error of `view` for a file of more than `MAX_CHAR_COUNT` characters. -/
def errTooManyChars (path : GoString) (charCount : Nat) : GoString :=
  bytes "File '" ++ path ++ bytes "' has too many characters (" ++ formatInt charCount ++
    bytes "). Maximum character count is " ++ formatInt MAX_CHAR_COUNT ++ bytes "."

/-- The method `view`. The number of characters, `len([]rune(content))`, is the number
of runes `utf8.RuneCountInString` counts: the conversion decodes the string the same way,
an invalid byte giving one rune. -/
def TextEditor.view (st : State) (request : Request) : Result × State :=
  match os.Stat st.disk request.Path with
  | .error _ => (.error (errNotFound request.Path), st)
  | .ok info =>
    if info.isDir then (.error (errNotFile request.Path), st)
    else if info.size > MAX_FILE_SIZE then
      (.error (errTooLarge request.Path info.size), st)
    else
      match os.ReadFile st.disk request.Path with
      | .error err => (.error (bytes "Failed to read file: " ++ err), st)
      | .ok content =>
        let charCount := utf8.RuneCountInString content
        if charCount > MAX_CHAR_COUNT then
          (.error (errTooManyChars request.Path charCount), st)
        else
          let ext := filepath.Ext request.Path
          let language := strings.TrimPrefix ext (bytes ".")
          (.ok { FileText := bytes "```" ++ language ++ bytes "\n" ++ content ++ bytes "\n```" },
            st)

/-- The method `editText`. -/
def TextEditor.editText (st : State) (request : Request) : Result × State :=
  if request.Command = bytes "view" then TextEditor.view st request
  else if request.Command = bytes "write" then TextEditor.write st request
  else if request.Command = bytes "str_replace" then TextEditor.strReplace st request
  else if request.Command = bytes "undo_edit" then TextEditor.undoEdit st request
  else (.error (bytes "invalid command: " ++ request.Command), st)

/-- Whether a handler returned a response (and no error). -/
def Result.isOk : Result → Bool
  | Result.ok _ => true
  | _ => false

/-! ## Runs of several calls -/

/-- A file system that holds one regular file, in which every path leads to a file
of its own and no read or write fails. -/
def FileSystem.single (path content : GoString) : FileSystem :=
  { target := fun p => p,
    files := fun p => if p = path then some (Node.file content) else none,
    readFault := fun _ => none,
    writeFault := fun _ => none }

/-- A file system that holds one regular file and in which a path with "./" in front
leads to the same file as the path without it; no read or write fails. -/
def FileSystem.dotSlash (path content : GoString) : FileSystem :=
  { target := fun p => strings.TrimPrefix p (bytes "./"),
    files := fun p => if p = path then some (Node.file content) else none,
    readFault := fun _ => none,
    writeFault := fun _ => none }

/-- A file system that holds nothing and in which no read or write fails. -/
def FileSystem.blank : FileSystem :=
  { target := fun p => p, files := fun _ => none, readFault := fun _ => none,
    writeFault := fun _ => none }

/-- A new editor in front of a file system that holds one regular file. -/
def State.fresh (path content : GoString) : State :=
  { editor := newTextEditor, disk := FileSystem.single path content }

/-- A new editor in front of an empty file system. -/
def State.blank : State :=
  { editor := newTextEditor, disk := FileSystem.blank }

/-- One `strReplace` call on `path` after the other, one for each pair of `old_str` and
`new_str`. The run is `none` as soon as a call finds no regular file or does not succeed;
otherwise it is the state after the last call and the contents the calls found (and
overwrote), in the order of the calls. -/
def replaceAll (path : GoString) : State → List (GoString × GoString) →
    Option (State × List GoString)
  | st, [] => some (st, [])
  | st, (o, n) :: rest =>
    match st.disk.nodes path, TextEditor.strReplace st { Path := path, OldStr := o, NewStr := n } with
    | some (Node.file c), (Result.ok _, st1) =>
      match replaceAll path st1 rest with
      | some (st2, cs) => some (st2, c :: cs)
      | none => none
    | _, _ => none

/-- The given number of `undoEdit` calls on `path`, one after the other: what each call
returned and what `path` named after it. -/
def undoTrace (path : GoString) : State → Nat → List (Result × Option Node)
  | _, 0 => []
  | st, n + 1 =>
    let r := TextEditor.undoEdit st { Path := path }
    (r.1, r.2.disk.nodes path) :: undoTrace path r.2 n

/-- A file system that holds one regular file which can be read but not written (the
mode of the file forbids it). -/
def FileSystem.readOnly (path content : GoString) : FileSystem :=
  { target := fun p => p,
    files := fun p => if p = path then some (Node.file content) else none,
    readFault := fun _ => none,
    writeFault := fun p =>
      if p = path then some (bytes "open " ++ path ++ bytes ": permission denied") else none }

/-- One `write` call on `path` after the other, one for each text. The run is `none` as
soon as a call does not succeed, otherwise the state after the last call. -/
def writeAll (path : GoString) : State → List GoString → Option State
  | st, [] => some st
  | st, x :: rest =>
    match TextEditor.write st { Path := path, FileText := x } with
    | (Result.ok _, st1) => writeAll path st1 rest
    | _ => none

/-- The text of `n` letters "é", two bytes each. -/
def eAcutes : Nat → GoString
  | 0 => []
  | n + 1 => 0xC3 :: 0xA9 :: eAcutes n

/-! ## The snippet of `strReplace` -/

/-- The bounds `startLine` and `endLine` of the snippet as `strReplace` computes them,
from the content before the replacement, the two strings and the content after the
replacement. -/
def snippetRange (content oldStr newStr newContent : GoString) : Int × Int :=
  let idx := strings.Index content oldStr
  let prefix0 := content.take idx.toNat
  let replacementLine : Int := strings.Count prefix0 (bytes "\n")
  let startLine := replacementLine - SNIPPET_LINES
  let startLine := if startLine < 0 then 0 else startLine
  let newStrLineCount : Int := strings.Count newStr (bytes "\n")
  let endLine := replacementLine + SNIPPET_LINES + newStrLineCount
  let lines := strings.Split newContent (bytes "\n")
  let endLine := if endLine ≥ lines.length then (lines.length : Int) - 1 else endLine
  (startLine, endLine)

/-- The elements of a list from index `a` to index `b`, both included. -/
def sliceInclusive (xs : List GoString) (a b : Nat) : List GoString :=
  (xs.drop a).take (b + 1 - a)

/-- The message of a successful `str_replace` in the words of the specification, for a
match that starts after `L` newlines, a `new_str` with `k` newlines and the lines of the
content after the replacement: the lines from `max(0, L-4)` to `min(L+4+k, len(lines)-1)`,
joined by newlines, in a fence with the tag of the path, between the two fixed
sentences. -/
def specMessage (path : GoString) (L k : Nat) (lines : List GoString) : GoString :=
  bytes "The file " ++ path ++ bytes " has been edited, and the section now reads:\n" ++
    (bytes "```" ++ strings.TrimPrefix (filepath.Ext path) (bytes ".") ++ bytes "\n" ++
      strings.Join
        (sliceInclusive lines (max 0 ((L : Int) - 4)).toNat
          (min ((L : Int) + 4 + (k : Int)) ((lines.length : Int) - 1)).toNat)
        (bytes "\n") ++
      bytes "\n```") ++
    bytes "\nReview the changes above for errors. Undo and edit the file again if necessary!"

/-! ## Calls of `write` that run at the same time

A call of `write` makes three steps, each of them one call into the operating system or
one critical section: it looks at the path and reads the old content (`os.Stat`,
`os.ReadFile`), it writes the new content (`os.WriteFile`), and it appends the old
content to the history with the mutex held and returns. Between two steps of one call,
steps of other calls can take place. -/

/-- Where a call of `write` stands, with its local variable `oldContent`. -/
inductive WritePc where
  | start
  | captured (oldContent : GoString)
  | written (oldContent : GoString)
  | done (result : Result)
  deriving DecidableEq

/-- One step of a call of `write`. -/
def writeStep (st : State) (request : Request) : WritePc → State × WritePc
  | WritePc.start =>
    let captured : Except GoString GoString :=
      match os.Stat st.disk request.Path with
      | .ok info => if !info.isDir then os.ReadFile st.disk request.Path else .ok []
      | .error _ => .ok []
    match captured with
    | .error err =>
      (st, WritePc.done (.error (bytes "Failed to read existing file: " ++ err)))
    | .ok oldContent => (st, WritePc.captured oldContent)
  | WritePc.captured oldContent =>
    match os.WriteFile st.disk request.Path request.FileText with
    | .error err => (st, WritePc.done (.error (bytes "Failed to write file: " ++ err)))
    | .ok disk1 => ({ editor := st.editor, disk := disk1 }, WritePc.written oldContent)
  | WritePc.written oldContent =>
    let editor1 :=
      if oldContent.length > 0 then
        st.editor.setHistory request.Path (st.editor.history request.Path ++ [oldContent])
      else st.editor
    ({ editor := editor1, disk := st.disk },
      WritePc.done
        (.ok { FileText := request.FileText, Message := msgWritten request.Path }))
  | WritePc.done result => (st, WritePc.done result)

/-- Several calls of `write` on one path under way: the state, where each call stands,
and (for the record only) the contents of regular files at the path that the
`os.WriteFile` steps have replaced so far, in the order in which that happened. -/
structure Race where
  st : State
  pcs : List WritePc
  overwritten : List GoString

/-- The call number `i` takes its next step. -/
def raceStep (path : GoString) (texts : List GoString) (r : Race) (i : Nat) : Race :=
  match texts.get? i, r.pcs.get? i with
  | some text, some pc =>
    let next := writeStep r.st { Path := path, FileText := text } pc
    let log :=
      match pc, next.2, r.st.disk.nodes path with
      | WritePc.captured _, WritePc.written _, some (Node.file c) => r.overwritten ++ [c]
      | _, _, _ => r.overwritten
    { st := next.1, pcs := r.pcs.set i next.2, overwritten := log }
  | _, _ => r

/-- One call of `write` on `path` for each text, all started in the state `st`; the
schedule names, step by step, the call that moves. -/
def raceRun (path : GoString) (texts : List GoString) (st : State) (schedule : List Nat) :
    Race :=
  schedule.foldl (raceStep path texts)
    { st := st, pcs := texts.map (fun _ => WritePc.start), overwritten := [] }

/-! ## Facts about the string functions -/

namespace utf8

theorem le_runeCountLoop (fuel : Nat) (s : GoString) (n : Nat) :
    n ≤ runeCountLoop fuel s n := by
  induction fuel generalizing s n with
  | zero => simp [runeCountLoop]
  | succ k ih =>
    cases s with
    | nil => simp [runeCountLoop]
    | cons c cs =>
      simp only [runeCountLoop]
      exact Nat.le_trans (Nat.le_succ n) (ih _ _)

theorem first_size (c : UInt8) (hc : ¬ c < 0x80) : first c = 0xF1 ∨ 2 ≤ first c % 8 := by
  unfold first
  rw [if_neg hc]
  split_ifs <;> first | (left; rfl) | (right; decide)

theorem runeWidth_pos (c : UInt8) (cs : GoString) : 1 ≤ runeWidth (c :: cs) := by
  unfold runeWidth
  simp only
  by_cases hc : c < 0x80
  · rw [if_pos hc]
  · rw [if_neg hc]
    have hx := first_size c hc
    generalize first c = x at hx
    split_ifs <;> omega

/-- The fuel of `runeCountLoop` is enough: any fuel from the length of the string on
gives the same count. -/
theorem runeCountLoop_fuel (fuel1 : Nat) :
    ∀ (fuel2 : Nat) (s : GoString) (n : Nat), s.length ≤ fuel1 → s.length ≤ fuel2 →
      runeCountLoop fuel1 s n = runeCountLoop fuel2 s n := by
  induction fuel1 with
  | zero =>
    intro fuel2 s n h1 _
    have hs : s = [] := List.length_eq_zero.mp (Nat.le_zero.mp h1)
    subst hs
    cases fuel2 <;> simp [runeCountLoop]
  | succ k ih =>
    intro fuel2 s n h1 h2
    cases s with
    | nil => cases fuel2 <;> simp [runeCountLoop]
    | cons c cs =>
      cases fuel2 with
      | zero => simp at h2
      | succ k2 =>
        simp only [runeCountLoop]
        have hw := runeWidth_pos c cs
        have hl : ((c :: cs).drop (runeWidth (c :: cs))).length ≤ cs.length := by
          simp only [List.length_drop, List.length_cons]; omega
        simp only [List.length_cons] at h1 h2
        exact ih k2 _ _ (by omega) (by omega)

theorem RuneCountInString_nil : RuneCountInString [] = 0 := rfl

theorem RuneCountInString_pos (c : UInt8) (cs : GoString) :
    1 ≤ RuneCountInString (c :: cs) := by
  unfold RuneCountInString
  simp only [List.length_cons, runeCountLoop]
  exact le_runeCountLoop _ _ _

end utf8

namespace strings

theorem firstIndex_nil_left (s : GoString) : firstIndex [] s = some 0 := by
  cases s <;> simp [firstIndex]

/-- An offset that `firstIndex` reports is the offset of an instance. -/
theorem firstIndex_some_eq (substr : GoString) (s : GoString) (i : Nat)
    (h : firstIndex substr s = some i) :
    s = s.take i ++ substr ++ s.drop (i + substr.length) := by
  induction s generalizing i with
  | nil =>
    simp only [firstIndex] at h
    split at h
    · subst_vars; simp
    · cases h
  | cons c cs ih =>
    simp only [firstIndex] at h
    split at h
    · rename_i hp
      cases h
      have := List.prefix_iff_eq_append.mp (List.isPrefixOf_iff_prefix.mp hp)
      simpa using this.symm
    · cases hq : firstIndex substr cs with
      | none => simp [hq] at h
      | some j =>
        simp [hq] at h
        subst h
        have hj := ih j hq
        have e : j + 1 + substr.length = (j + substr.length) + 1 := by omega
        rw [e]
        simp only [List.take_succ_cons, List.drop_succ_cons, List.cons_append]
        exact congrArg (c :: ·) hj

theorem firstIndex_some_le (substr : GoString) (s : GoString) (i : Nat)
    (h : firstIndex substr s = some i) : i + substr.length ≤ s.length := by
  induction s generalizing i with
  | nil =>
    simp only [firstIndex] at h
    split at h
    · subst_vars; cases h; simp
    · cases h
  | cons c cs ih =>
    simp only [firstIndex] at h
    split at h
    · rename_i hp
      cases h
      have := (List.isPrefixOf_iff_prefix.mp hp).length_le
      simpa using this
    · cases hq : firstIndex substr cs with
      | none => simp [hq] at h
      | some j =>
        simp [hq] at h
        subst h
        have := ih j hq
        simp only [List.length_cons]
        omega

theorem firstIndex_singleton_cons (c x : UInt8) (xs : GoString) :
    firstIndex [c] (x :: xs) = if c = x then some 0 else (firstIndex [c] xs).map (· + 1) := by
  simp [firstIndex, List.isPrefixOf]

theorem firstIndex_singleton_of_count (c : UInt8) (s : GoString) (h : 0 < s.count c) :
    ∃ i, firstIndex [c] s = some i := by
  induction s with
  | nil => simp at h
  | cons x xs ih =>
    rw [firstIndex_singleton_cons]
    by_cases hx : c = x
    · exact ⟨0, by simp [hx]⟩
    · have hc : 0 < xs.count c := by
        rw [List.count_cons] at h
        have : (x == c) = false := by simpa using fun e => hx e.symm
        simpa [this] using h
      obtain ⟨i, hi⟩ := ih hc
      exact ⟨i + 1, by simp [hx, hi]⟩

theorem le_countLoop (substr : GoString) (fuel : Nat) (s : GoString) (n : Nat) :
    n ≤ countLoop substr fuel s n := by
  induction fuel generalizing s n with
  | zero => simp [countLoop]
  | succ k ih =>
    simp only [countLoop]
    split
    · exact Nat.le_refl n
    · exact Nat.le_trans (Nat.le_succ n) (ih _ _)

/-- The fuel of `countLoop` is enough: for a non-empty `substr`, any fuel above the
length of the string gives the same count. -/
theorem countLoop_fuel (substr : GoString) (hsub : substr ≠ []) (fuel1 : Nat) :
    ∀ (fuel2 : Nat) (s : GoString) (n : Nat), s.length < fuel1 → s.length < fuel2 →
      countLoop substr fuel1 s n = countLoop substr fuel2 s n := by
  induction fuel1 with
  | zero => intro fuel2 s n h1 _; omega
  | succ k ih =>
    intro fuel2 s n h1 h2
    cases fuel2 with
    | zero => omega
    | succ k2 =>
      simp only [countLoop]
      cases hq : firstIndex substr s with
      | none => rfl
      | some i =>
        have hle := firstIndex_some_le substr s i hq
        have hpos : 0 < substr.length := List.length_pos.mpr hsub
        have hl : (s.drop (i + substr.length)).length < s.length := by
          simp only [List.length_drop]; omega
        exact ih k2 _ _ (by omega) (by omega)

/-- Where `Count` finds an instance, `Index` finds one. -/
theorem firstIndex_of_count_pos (s substr : GoString) (h : 0 < Count s substr) :
    ∃ i, firstIndex substr s = some i := by
  match substr, h with
  | [], _ => exact ⟨0, firstIndex_nil_left s⟩
  | [c], h => exact firstIndex_singleton_of_count c s (by simpa [Count] using h)
  | c :: d :: t, h =>
    simp only [Count, countLoop] at h
    cases hq : firstIndex (c :: d :: t) s with
    | none => simp [hq] at h
    | some i => exact ⟨i, rfl⟩

/-- With at least one instance in `s`, `Replace s old new 1` replaces the instance at
the offset `Index` reports. -/
theorem Replace_one (s old new : GoString) (j : Nat) (hj : firstIndex old s = some j)
    (hc : Count s old ≠ 0) :
    Replace s old new 1 = s.take j ++ new ++ s.drop (j + old.length) := by
  unfold Replace
  by_cases hon : old = new
  · simp only [hon, true_or, if_true]
    rw [hon] at hj
    exact firstIndex_some_eq new s j hj
  · have hm : ¬ ((Count s old : Int) < 1) := by omega
    simp only [hon, false_or, hc, if_false, Int.reduceLT, hm, Int.toNat_one, one_ne_zero]
    by_cases ho : old = []
    · subst ho
      rw [firstIndex_nil_left] at hj
      cases hj
      simp [replaceLoop]
    · simp [replaceLoop, ho, hj]

theorem bytes_newline : bytes "\n" = [10] := rfl

theorem Count_newline (s : GoString) : Count s (bytes "\n") = s.count 10 := by
  rw [bytes_newline]; rfl

theorem count_of_firstIndex_singleton_none (c : UInt8) (s : GoString)
    (h : firstIndex [c] s = none) : s.count c = 0 := by
  rcases Nat.eq_zero_or_pos (s.count c) with h0 | h0
  · exact h0
  · obtain ⟨i, hi⟩ := firstIndex_singleton_of_count c s h0
    rw [h] at hi; cases hi

theorem count_of_firstIndex_singleton_some (c : UInt8) (s : GoString) (m : Nat)
    (h : firstIndex [c] s = some m) : s.count c = (s.drop (m + 1)).count c + 1 := by
  induction s generalizing m with
  | nil => simp [firstIndex] at h
  | cons x xs ih =>
    rw [firstIndex_singleton_cons] at h
    by_cases hx : c = x
    · simp only [hx, if_true, Option.some.injEq] at h
      subst h
      simp [hx]
    · simp only [hx, if_false] at h
      cases hq : firstIndex [c] xs with
      | none => simp [hq] at h
      | some j =>
        simp [hq] at h
        subst h
        have hxc : (x == c) = false := by simpa using fun e => hx e.symm
        rw [List.count_cons, ih j hq]
        simp [hxc]

theorem length_splitLoop_singleton (c : UInt8) (n : Nat) (s : GoString) :
    (splitLoop [c] n s).length = min n (s.count c) + 1 := by
  induction n generalizing s with
  | zero => simp [splitLoop]
  | succ k ih =>
    simp only [splitLoop]
    cases hq : firstIndex [c] s with
    | none => simp [count_of_firstIndex_singleton_none c s hq]
    | some m =>
      simp only [List.length_cons, List.length_nil, Nat.zero_add, ih]
      rw [count_of_firstIndex_singleton_some c s m hq]
      omega

/-- Splitting at newlines gives one line more than there are newlines. -/
theorem length_Split_newline (s : GoString) :
    (Split s (bytes "\n")).length = s.count 10 + 1 := by
  rw [bytes_newline]
  have hle : s.count 10 ≤ s.length := List.count_le_length 10 s
  simp only [Split, List.cons_ne_nil, if_false, length_splitLoop_singleton]
  have : Count s [10] = s.count 10 := rfl
  rw [this]
  omega

end strings


namespace utf8

theorem runeWidth_ascii (a : UInt8) (cs : GoString) (ha : a < 0x80) :
    runeWidth (a :: cs) = 1 := by
  simp [runeWidth, ha]

theorem runeCountLoop_replicate (a : UInt8) (ha : a < 0x80) (n : Nat) :
    ∀ (fuel acc : Nat), n ≤ fuel → runeCountLoop fuel (List.replicate n a) acc = acc + n := by
  induction n with
  | zero =>
    intro fuel acc _
    cases fuel <;> simp [runeCountLoop]
  | succ k ih =>
    intro fuel acc hf
    cases fuel with
    | zero => omega
    | succ f =>
      simp only [List.replicate_succ, runeCountLoop, runeWidth_ascii a _ ha, List.drop_succ_cons,
        List.drop_zero]
      rw [ih f (acc + 1) (by omega)]
      omega

/-- A text of `n` ASCII bytes has `n` runes. -/
theorem RuneCountInString_replicate (a : UInt8) (ha : a < 0x80) (n : Nat) :
    RuneCountInString (List.replicate n a) = n := by
  unfold RuneCountInString
  rw [runeCountLoop_replicate a ha n _ 0 (by simp)]
  simp

end utf8

theorem length_eAcutes (n : Nat) : (eAcutes n).length = 2 * n := by
  induction n with
  | zero => rfl
  | succ k ih => simp only [eAcutes, List.length_cons, ih]; omega

theorem runeWidth_eAcute (cs : GoString) : utf8.runeWidth (0xC3 :: 0xA9 :: cs) = 2 := by
  have h1 : ¬ ((0xC3 : UInt8) < 0x80) := by decide
  have h2 : utf8.first 0xC3 = 0x02 := by decide
  have h3 : ¬ ((0xA9 : UInt8) < 0x80 ∨ (0xBF : UInt8) < 0xA9) := by decide
  simp only [utf8.runeWidth, h1, h2, if_false, List.length_cons]
  simp [utf8.acceptRanges, h3]

theorem runeCountLoop_eAcutes (n : Nat) :
    ∀ (fuel acc : Nat), n ≤ fuel → utf8.runeCountLoop fuel (eAcutes n) acc = acc + n := by
  induction n with
  | zero =>
    intro fuel acc _
    cases fuel <;> simp [eAcutes, utf8.runeCountLoop]
  | succ k ih =>
    intro fuel acc hf
    cases fuel with
    | zero => omega
    | succ f =>
      simp only [eAcutes, utf8.runeCountLoop, runeWidth_eAcute, List.drop_succ_cons,
        List.drop_zero]
      rw [ih f (acc + 1) (by omega)]
      omega

/-- The text of `n` letters "é" has `n` runes. -/
theorem RuneCountInString_eAcutes (n : Nat) : utf8.RuneCountInString (eAcutes n) = n := by
  unfold utf8.RuneCountInString
  rw [runeCountLoop_eAcutes n _ 0 (by rw [length_eAcutes]; omega)]
  simp

namespace filepath

theorem extLoop_dot (l rest : GoString) (h1 : (0x2E : UInt8) ∉ l) (h2 : (0x2F : UInt8) ∉ l) :
    ∀ acc, extLoop (l ++ 0x2E :: rest) acc = 0x2E :: (l.reverse ++ acc) := by
  induction l with
  | nil => intro acc; simp [extLoop]
  | cons c t ih =>
    intro acc
    have hc1 : c ≠ 0x2E := fun e => h1 (by simp [e])
    have hc2 : c ≠ 0x2F := fun e => h2 (by simp [e])
    have e := ih (fun h => h1 (List.mem_cons_of_mem _ h))
      (fun h => h2 (List.mem_cons_of_mem _ h)) (c :: acc)
    simp only [List.cons_append, extLoop, hc1, hc2, if_false]
    simp only [List.append_eq]
    rw [e]
    simp

theorem extLoop_no_dot (l rest : GoString) (h1 : (0x2E : UInt8) ∉ l)
    (hrest : rest = [] ∨ ∃ t, rest = 0x2F :: t) :
    ∀ acc, extLoop (l ++ rest) acc = [] := by
  induction l with
  | nil =>
    intro acc
    rcases hrest with h | ⟨t, h⟩ <;> simp [h, extLoop]
  | cons c t ih =>
    intro acc
    have hc1 : c ≠ 0x2E := fun e => h1 (by simp [e])
    have e := ih (fun h => h1 (List.mem_cons_of_mem _ h)) (c :: acc)
    simp only [List.cons_append, extLoop, hc1, if_false]
    simp only [List.append_eq]
    split
    · rfl
    · exact e

/-- The extension is what follows the last dot, the dot included, when no separator
comes after that dot. -/
theorem Ext_dot (d suf : GoString) (h1 : (0x2E : UInt8) ∉ suf) (h2 : (0x2F : UInt8) ∉ suf) :
    Ext (d ++ 0x2E :: suf) = 0x2E :: suf := by
  unfold Ext
  rw [List.reverse_append, List.reverse_cons, List.append_assoc]
  rw [show [(0x2E : UInt8)] ++ d.reverse = 0x2E :: d.reverse from rfl]
  rw [extLoop_dot suf.reverse d.reverse (by simpa using h1) (by simpa using h2)]
  simp

/-- The extension is empty when the last element of the path has no dot. -/
theorem Ext_no_dot (d base : GoString) (h1 : (0x2E : UInt8) ∉ base)
    (hd : d = [] ∨ ∃ t, d = t ++ [0x2F]) :
    Ext (d ++ base) = [] := by
  unfold Ext
  rw [List.reverse_append]
  apply extLoop_no_dot _ _ (by simpa using h1)
  rcases hd with h | ⟨t, h⟩
  · left; simp [h]
  · right; exact ⟨t.reverse, by simp [h]⟩

end filepath

theorem TrimPrefix_dot (suf : GoString) :
    strings.TrimPrefix (0x2E :: suf) (bytes ".") = suf := by
  have hb : bytes "." = [0x2E] := by decide
  rw [hb]
  simp [strings.TrimPrefix, List.isPrefixOf]

theorem TrimPrefix_nil : strings.TrimPrefix [] (bytes ".") = [] := by decide

/-! ## Facts about the file system -/

/-- What a path names after a file was stored: the stored file if the path leads to
it, what it named before otherwise. -/
theorem FileSystem.nodes_store (fs : FileSystem) (name data q : GoString) :
    (fs.store name data).nodes q =
      if fs.target q = fs.target name then some (Node.file data) else fs.nodes q := rfl

@[simp] theorem FileSystem.target_store (fs : FileSystem) (name data : GoString) :
    (fs.store name data).target = fs.target := rfl

@[simp] theorem FileSystem.readFault_store (fs : FileSystem) (name data : GoString) :
    (fs.store name data).readFault = fs.readFault := rfl

@[simp] theorem FileSystem.writeFault_store (fs : FileSystem) (name data : GoString) :
    (fs.store name data).writeFault = fs.writeFault := rfl

/-! ## Facts about the handlers -/

theorem exists_ok_of_ite {c : Prop} [Decidable c] {x y : Result × State} {s : State}
    (hc : ¬ c) (hy : ∃ r, y = (Result.ok r, s)) :
    ∃ r, (if c then x else y) = (Result.ok r, s) := by
  rw [if_neg hc]; exact hy

/-- The run of `strReplace` on a readable file with exactly one instance of `old_str`
and a write that works: a response, the old content pushed, the instance at the offset
of `Index` replaced. -/
theorem strReplace_run (st : State) (request : Request) (content : GoString) (j : Nat)
    (hnode : st.disk.nodes request.Path = some (Node.file content))
    (hr : st.disk.readFault request.Path = none)
    (hw : st.disk.writeFault request.Path = none)
    (hc : strings.Count content request.OldStr = 1)
    (hj : strings.firstIndex request.OldStr content = some j) :
    ∃ resp, TextEditor.strReplace st request =
      (Result.ok resp,
        { editor := st.editor.setHistory request.Path
            (st.editor.history request.Path ++ [content]),
          disk := st.disk.store request.Path
            (content.take j ++ request.NewStr ++ content.drop (j + request.OldStr.length)) }) := by
  have hrep := strings.Replace_one content request.OldStr request.NewStr j hj (by omega)
  have hidx : strings.Index content request.OldStr = (j : Int) := by simp [strings.Index, hj]
  unfold TextEditor.strReplace
  simp only [os.Stat, os.ReadFile, os.WriteFile, hnode, hr, hw, hc, hrep, hidx]
  have h1 : ¬ ((1 : Nat) > 1) := by decide
  have h2 : ¬ ((1 : Nat) = 0) := by decide
  have h3 : ¬ ((j : Int) = -1) := by omega
  rw [if_neg h1, if_neg h2, if_neg h3]
  simp only [strings.length_Split_newline, strings.Count_newline, Int.toNat_ofNat,
    List.count_append, SNIPPET_LINES]
  refine exists_ok_of_ite ?_ ⟨_, rfl⟩
  intro hb
  split_ifs at hb <;> omega


theorem strReplace_read_fault (st : State) (request : Request) (content err : GoString)
    (hnode : st.disk.nodes request.Path = some (Node.file content))
    (hr : st.disk.readFault request.Path = some err) :
    TextEditor.strReplace st request =
      (Result.error (bytes "Failed to read file: " ++ err), st) := by
  unfold TextEditor.strReplace
  simp only [os.Stat, os.ReadFile, hnode, hr]

theorem strReplace_count_zero (st : State) (request : Request) (content : GoString)
    (hnode : st.disk.nodes request.Path = some (Node.file content))
    (hr : st.disk.readFault request.Path = none)
    (hc : strings.Count content request.OldStr = 0) :
    TextEditor.strReplace st request = (Result.error errNoMatch, st) := by
  unfold TextEditor.strReplace
  simp [os.Stat, os.ReadFile, hnode, hr, hc]

theorem strReplace_count_many (st : State) (request : Request) (content : GoString)
    (hnode : st.disk.nodes request.Path = some (Node.file content))
    (hr : st.disk.readFault request.Path = none)
    (hc : 2 ≤ strings.Count content request.OldStr) :
    TextEditor.strReplace st request = (Result.error errMultiple, st) := by
  unfold TextEditor.strReplace
  have h : strings.Count content request.OldStr > 1 := hc
  simp [os.Stat, os.ReadFile, hnode, hr, h]

theorem strReplace_write_fault (st : State) (request : Request) (content err : GoString)
    (hnode : st.disk.nodes request.Path = some (Node.file content))
    (hr : st.disk.readFault request.Path = none)
    (hc : strings.Count content request.OldStr = 1)
    (hw : st.disk.writeFault request.Path = some err) :
    TextEditor.strReplace st request =
      (Result.error (bytes "Failed to write file: " ++ err),
        { editor := st.editor.setHistory request.Path
            (st.editor.history request.Path ++ [content]),
          disk := st.disk }) := by
  unfold TextEditor.strReplace
  simp [os.Stat, os.ReadFile, os.WriteFile, hnode, hr, hc, hw]

/-- A `strReplace` that succeeds on a regular file has read it, found one instance and
written the file. -/
theorem strReplace_ok_inv (st : State) (request : Request) (content : GoString)
    (hnode : st.disk.nodes request.Path = some (Node.file content))
    (hok : (TextEditor.strReplace st request).1.isOk = true) :
    st.disk.readFault request.Path = none ∧
    strings.Count content request.OldStr = 1 ∧
    st.disk.writeFault request.Path = none := by
  cases hr : st.disk.readFault request.Path with
  | some err =>
    rw [strReplace_read_fault st request content err hnode hr] at hok
    simp [Result.isOk] at hok
  | none =>
    have hc : strings.Count content request.OldStr = 1 := by
      rcases Nat.lt_trichotomy (strings.Count content request.OldStr) 1 with h | h | h
      · rw [strReplace_count_zero st request content hnode hr (by omega)] at hok
        simp [Result.isOk] at hok
      · exact h
      · rw [strReplace_count_many st request content hnode hr (by omega)] at hok
        simp [Result.isOk] at hok
    refine ⟨rfl, hc, ?_⟩
    cases hw : st.disk.writeFault request.Path with
    | some err =>
      rw [strReplace_write_fault st request content err hnode hr hc hw] at hok
      simp [Result.isOk] at hok
    | none => rfl

/-- The state a successful `strReplace` on a regular file leaves. -/
theorem strReplace_ok_state (st : State) (request : Request) (content : GoString)
    (hnode : st.disk.nodes request.Path = some (Node.file content))
    (hok : (TextEditor.strReplace st request).1.isOk = true) :
    ∃ j, strings.firstIndex request.OldStr content = some j ∧
      (TextEditor.strReplace st request).2 =
        { editor := st.editor.setHistory request.Path
            (st.editor.history request.Path ++ [content]),
          disk := st.disk.store request.Path
            (content.take j ++ request.NewStr ++ content.drop (j + request.OldStr.length)) } := by
  obtain ⟨hr, hc, hw⟩ := strReplace_ok_inv st request content hnode hok
  obtain ⟨j, hj⟩ := strings.firstIndex_of_count_pos content request.OldStr (by omega)
  obtain ⟨resp, hrun⟩ := strReplace_run st request content j hnode hr hw hc hj
  exact ⟨j, hj, by rw [hrun]⟩


theorem history_eq_nil_iff (f : TextEditor) (path : GoString) :
    f.history path = [] ↔ f.fileHistory path = none ∨ f.fileHistory path = some [] := by
  unfold TextEditor.history
  cases f.fileHistory path <;> simp

theorem undoEdit_no_history (st : State) (request : Request)
    (hh : st.editor.history request.Path = []) :
    TextEditor.undoEdit st request = (Result.error (errNoHistory request.Path), st) := by
  unfold TextEditor.undoEdit
  rcases (history_eq_nil_iff _ _).mp hh with h | h <;> simp [h]

theorem undoEdit_write_fault (st : State) (request : Request) (h : List GoString)
    (e err : GoString)
    (hh : st.editor.fileHistory request.Path = some (h ++ [e]))
    (hw : os.WriteFile st.disk request.Path e = Except.error err) :
    TextEditor.undoEdit st request =
      (Result.error (bytes "Failed to write file: " ++ err), st) := by
  unfold TextEditor.undoEdit
  simp [hh, hw]

theorem undoEdit_run (st : State) (request : Request) (h : List GoString)
    (e : GoString) (disk1 : FileSystem)
    (hh : st.editor.fileHistory request.Path = some (h ++ [e]))
    (hw : os.WriteFile st.disk request.Path e = Except.ok disk1) :
    TextEditor.undoEdit st request =
      (Result.ok { Message := msgUndone request.Path },
        { editor := st.editor.setHistory request.Path h, disk := disk1 }) := by
  unfold TextEditor.undoEdit
  simp [hh, hw]

theorem WriteFile_ok_eq (fs fs1 : FileSystem) (name data : GoString)
    (h : os.WriteFile fs name data = Except.ok fs1) : fs1 = fs.store name data := by
  unfold os.WriteFile at h
  split at h
  · cases h
  · split at h
    · cases h
    · cases h; rfl

theorem WriteFile_ok_of (fs : FileSystem) (name data : GoString)
    (hn : fs.nodes name ≠ some Node.dir) (hw : fs.writeFault name = none) :
    os.WriteFile fs name data = Except.ok (fs.store name data) := by
  unfold os.WriteFile
  split
  · rename_i hd; exact absurd hd hn
  · simp [hw]

/-- The state a successful `undoEdit` leaves. -/
theorem undoEdit_ok_state (st : State) (request : Request) (h : List GoString)
    (e : GoString)
    (hh : st.editor.fileHistory request.Path = some (h ++ [e]))
    (hok : (TextEditor.undoEdit st request).1.isOk = true) :
    TextEditor.undoEdit st request =
      (Result.ok { Message := msgUndone request.Path },
        { editor := st.editor.setHistory request.Path h,
          disk := st.disk.store request.Path e }) := by
  cases hw : os.WriteFile st.disk request.Path e with
  | error err =>
    rw [undoEdit_write_fault st request h e err hh hw] at hok
    simp [Result.isOk] at hok
  | ok disk1 =>
    rw [undoEdit_run st request h e disk1 hh hw, WriteFile_ok_eq _ _ _ _ hw]

/-- What a run of `replaceAll` keeps: the contents it overwrote are what it appended to
the history of the path, and once a call has succeeded the path names a regular file
that can be written. -/
theorem replaceAll_spec (path : GoString) (edits : List (GoString × GoString)) :
    ∀ (st st1 : State) (cs : List GoString),
      replaceAll path st edits = some (st1, cs) →
      cs.length = edits.length ∧
      st1.editor.history path = st.editor.history path ++ cs ∧
      ((edits ≠ [] ∨ (st.disk.writeFault path = none ∧ st.disk.nodes path ≠ some Node.dir)) →
        st1.disk.writeFault path = none ∧ st1.disk.nodes path ≠ some Node.dir) := by
  induction edits with
  | nil =>
    intro st st1 cs h
    simp only [replaceAll, Option.some.injEq, Prod.mk.injEq] at h
    obtain ⟨rfl, rfl⟩ := h
    refine ⟨rfl, by simp, fun hp => ?_⟩
    rcases hp with hp | hp
    · exact absurd rfl hp
    · exact hp
  | cons e rest ih =>
    intro st st1 cs h
    obtain ⟨o, n⟩ := e
    cases hn : st.disk.nodes path with
    | none => simp [replaceAll, hn] at h
    | some node =>
      cases node with
      | dir => simp [replaceAll, hn] at h
      | file c =>
        have hnode : st.disk.nodes ({ Path := path, OldStr := o, NewStr := n } : Request).Path =
            some (Node.file c) := hn
        cases hr : TextEditor.strReplace st { Path := path, OldStr := o, NewStr := n } with
        | mk res s1 =>
          cases res with
          | error msg => simp [replaceAll, hn, hr] at h
          | panic => simp [replaceAll, hn, hr] at h
          | ok resp =>
            have hok : (TextEditor.strReplace st
                { Path := path, OldStr := o, NewStr := n }).1.isOk = true := by
              rw [hr]; rfl
            obtain ⟨j, _, hst⟩ := strReplace_ok_state st _ c hnode hok
            obtain ⟨_, _, hw⟩ := strReplace_ok_inv st _ c hnode hok
            rw [hr] at hst
            simp only at hst hw
            cases hrest : replaceAll path s1 rest with
            | none => simp [replaceAll, hn, hr, hrest] at h
            | some p =>
              obtain ⟨st2, cs2⟩ := p
              simp only [replaceAll, hn, hr, hrest, Option.some.injEq, Prod.mk.injEq] at h
              obtain ⟨rfl, rfl⟩ := h
              obtain ⟨hlen, hhist, hdisk⟩ := ih s1 st2 cs2 hrest
              refine ⟨by simp [hlen], ?_, fun _ => hdisk (Or.inr ?_)⟩
              · rw [hhist, hst]
                simp [TextEditor.setHistory, TextEditor.history]
              · rw [hst]
                simp [FileSystem.nodes_store, hw]

/-- Undoing once more than the stack is long: the entries come back last first, then
the history is used up. -/
theorem undoTrace_spec (path : GoString) (h : List GoString) :
    ∀ (st : State), st.editor.history path = h →
      (h ≠ [] → st.disk.writeFault path = none ∧ st.disk.nodes path ≠ some Node.dir) →
      ∃ nd, undoTrace path st (h.length + 1) =
        h.reverse.map (fun c => (Result.ok { Message := msgUndone path }, some (Node.file c)))
          ++ [(Result.error (errNoHistory path), nd)] := by
  induction h using List.reverseRecOn with
  | nil =>
    intro st hh _
    refine ⟨st.disk.nodes path, ?_⟩
    have := undoEdit_no_history st { Path := path } hh
    simp [undoTrace, this]
  | append_singleton l a ih =>
    intro st hh hd
    obtain ⟨hw, hn⟩ := hd (by simp)
    have hfh : st.editor.fileHistory ({ Path := path } : Request).Path = some (l ++ [a]) := by
      unfold TextEditor.history at hh
      cases hq : st.editor.fileHistory path with
      | none => simp [hq] at hh
      | some x => simp [hq] at hh; simp [hh]
    have hrun := undoEdit_run st { Path := path } l a _ hfh
      (WriteFile_ok_of st.disk path a hn hw)
    obtain ⟨nd, hnd⟩ := ih
      { editor := st.editor.setHistory path l, disk := st.disk.store path a }
      (by simp [TextEditor.setHistory, TextEditor.history])
      (fun _ => by simp [FileSystem.nodes_store, hw])
    refine ⟨nd, ?_⟩
    simp only [List.length_append, List.length_singleton, undoTrace, hrun, hnd,
      List.reverse_append, List.reverse_singleton, List.singleton_append, List.map_cons,
      List.cons_append]
    simp [FileSystem.nodes_store]

/-- The run of `write` over a regular file that can be read and written. -/
theorem write_run_file (st : State) (request : Request) (content : GoString)
    (hnode : st.disk.nodes request.Path = some (Node.file content))
    (hr : st.disk.readFault request.Path = none)
    (hw : st.disk.writeFault request.Path = none) :
    TextEditor.write st request =
      (Result.ok { FileText := request.FileText, Message := msgWritten request.Path },
        { editor :=
            if content.length > 0 then
              st.editor.setHistory request.Path (st.editor.history request.Path ++ [content])
            else st.editor,
          disk := st.disk.store request.Path request.FileText }) := by
  unfold TextEditor.write
  simp [os.Stat, os.ReadFile, os.WriteFile, hnode, hr, hw]

/-- A `write` that succeeds over a regular file has read it and written it. -/
theorem write_ok_inv_file (st : State) (request : Request) (content : GoString)
    (hnode : st.disk.nodes request.Path = some (Node.file content))
    (hok : (TextEditor.write st request).1.isOk = true) :
    st.disk.readFault request.Path = none ∧ st.disk.writeFault request.Path = none := by
  cases hr : st.disk.readFault request.Path with
  | some err =>
    simp [TextEditor.write, os.Stat, os.ReadFile, hnode, hr, Result.isOk] at hok
  | none =>
    cases hw : st.disk.writeFault request.Path with
    | some err =>
      simp [TextEditor.write, os.Stat, os.ReadFile, os.WriteFile, hnode, hr, hw,
        Result.isOk] at hok
    | none => exact ⟨rfl, rfl⟩

/-- A `write` that succeeds where no regular file is leaves the editor as it was. -/
theorem write_ok_state_new (st : State) (request : Request)
    (hno : ∀ c, st.disk.nodes request.Path ≠ some (Node.file c))
    (hok : (TextEditor.write st request).1.isOk = true) :
    (TextEditor.write st request).2 =
      { editor := st.editor, disk := st.disk.store request.Path request.FileText } := by
  cases hn : st.disk.nodes request.Path with
  | none =>
    cases hw : st.disk.writeFault request.Path with
    | some err =>
      simp [TextEditor.write, os.Stat, os.WriteFile, hn, hw, Result.isOk] at hok
    | none => simp [TextEditor.write, os.Stat, os.WriteFile, hn, hw]
  | some node =>
    cases node with
    | file c => exact absurd hn (hno c)
    | dir => simp [TextEditor.write, os.Stat, os.WriteFile, hn, Result.isOk] at hok

/-- What a `write` that succeeds returns and leaves on disk. -/
theorem write_ok_result (st : State) (request : Request)
    (hok : (TextEditor.write st request).1.isOk = true) :
    (TextEditor.write st request).1 =
        Result.ok { FileText := request.FileText, Message := msgWritten request.Path } ∧
    (TextEditor.write st request).2.disk = st.disk.store request.Path request.FileText ∧
    st.disk.writeFault request.Path = none := by
  cases hn : st.disk.nodes request.Path with
  | none =>
    cases hw : st.disk.writeFault request.Path with
    | some err =>
      simp [TextEditor.write, os.Stat, os.WriteFile, hn, hw, Result.isOk] at hok
    | none => simp [TextEditor.write, os.Stat, os.WriteFile, hn, hw]
  | some node =>
    cases node with
    | dir => simp [TextEditor.write, os.Stat, os.WriteFile, hn, Result.isOk] at hok
    | file c =>
      obtain ⟨hr, hw⟩ := write_ok_inv_file st request c hn hok
      rw [write_run_file st request c hn hr hw]
      exact ⟨rfl, rfl, hw⟩

theorem view_state (st : State) (request : Request) :
    (TextEditor.view st request).2 = st := by
  unfold TextEditor.view
  repeat' split
  all_goals first | rfl | (dsimp only; split <;> rfl)

theorem view_missing (st : State) (request : Request)
    (hn : st.disk.nodes request.Path = none) :
    TextEditor.view st request = (Result.error (errNotFound request.Path), st) := by
  simp [TextEditor.view, os.Stat, hn]

theorem view_dir (st : State) (request : Request)
    (hn : st.disk.nodes request.Path = some Node.dir) :
    TextEditor.view st request = (Result.error (errNotFile request.Path), st) := by
  simp [TextEditor.view, os.Stat, hn]

theorem view_too_large (st : State) (request : Request) (content : GoString)
    (hn : st.disk.nodes request.Path = some (Node.file content))
    (hsize : MAX_FILE_SIZE < content.length) :
    TextEditor.view st request =
      (Result.error (errTooLarge request.Path content.length), st) := by
  simp [TextEditor.view, os.Stat, hn, hsize]

theorem view_read_fault (st : State) (request : Request) (content err : GoString)
    (hn : st.disk.nodes request.Path = some (Node.file content))
    (hsize : content.length ≤ MAX_FILE_SIZE)
    (hr : st.disk.readFault request.Path = some err) :
    TextEditor.view st request =
      (Result.error (bytes "Failed to read file: " ++ err), st) := by
  have h : ¬ MAX_FILE_SIZE < content.length := Nat.not_lt.mpr hsize
  simp [TextEditor.view, os.Stat, os.ReadFile, hn, hr, h]

theorem view_too_many (st : State) (request : Request) (content : GoString)
    (hn : st.disk.nodes request.Path = some (Node.file content))
    (hsize : content.length ≤ MAX_FILE_SIZE)
    (hr : st.disk.readFault request.Path = none)
    (hcount : MAX_CHAR_COUNT < utf8.RuneCountInString content) :
    TextEditor.view st request =
      (Result.error (errTooManyChars request.Path (utf8.RuneCountInString content)), st) := by
  have h : ¬ MAX_FILE_SIZE < content.length := Nat.not_lt.mpr hsize
  simp [TextEditor.view, os.Stat, os.ReadFile, hn, hr, h, hcount]

theorem view_run (st : State) (request : Request) (content : GoString)
    (hn : st.disk.nodes request.Path = some (Node.file content))
    (hsize : content.length ≤ MAX_FILE_SIZE)
    (hr : st.disk.readFault request.Path = none)
    (hcount : utf8.RuneCountInString content ≤ MAX_CHAR_COUNT) :
    TextEditor.view st request =
      (Result.ok { FileText := bytes "```" ++
          strings.TrimPrefix (filepath.Ext request.Path) (bytes ".") ++ bytes "\n" ++
          content ++ bytes "\n```" }, st) := by
  have h : ¬ MAX_FILE_SIZE < content.length := Nat.not_lt.mpr hsize
  have h2 : ¬ MAX_CHAR_COUNT < utf8.RuneCountInString content := Nat.not_lt.mpr hcount
  simp [TextEditor.view, os.Stat, os.ReadFile, hn, hr, h, h2]

/-- One step of `writeAll`: the run goes on exactly when the call succeeded. -/
theorem writeAll_cons (path : GoString) (st st1 : State) (x : GoString)
    (rest : List GoString) (hrun : writeAll path st (x :: rest) = some st1) :
    (TextEditor.write st { Path := path, FileText := x }).1.isOk = true ∧
    writeAll path (TextEditor.write st { Path := path, FileText := x }).2 rest = some st1 := by
  cases hw : TextEditor.write st { Path := path, FileText := x } with
  | mk res s1 =>
    cases res with
    | ok resp => simpa [writeAll, hw, Result.isOk] using hrun
    | error msg => simp [writeAll, hw] at hrun
    | panic => simp [writeAll, hw] at hrun

/-- A run of `writeAll` over an existing file: every content that is overwritten, the
one the run starts with and every text but the last, is pushed if it is not empty. -/
theorem writeAll_spec (path : GoString) (rest : List GoString) :
    ∀ (st st1 : State) (c : GoString),
      st.disk.nodes path = some (Node.file c) →
      (∀ x ∈ (c :: rest).dropLast, x ≠ []) →
      writeAll path st rest = some st1 →
      st1.editor.history path = st.editor.history path ++ (c :: rest).dropLast := by
  induction rest with
  | nil =>
    intro st st1 c _ _ hrun
    simp only [writeAll, Option.some.injEq] at hrun
    subst hrun
    simp
  | cons x r ih =>
    intro st st1 c hn hne hrun
    obtain ⟨hok, hrest⟩ := writeAll_cons path st st1 x r hrun
    have hnode : st.disk.nodes ({ Path := path, FileText := x } : Request).Path =
        some (Node.file c) := hn
    obtain ⟨hr, hw⟩ := write_ok_inv_file st _ c hnode hok
    have hc : c ≠ [] := hne c (by simp [List.dropLast])
    have hst := write_run_file st { Path := path, FileText := x } c hnode hr hw
    rw [if_pos (List.length_pos.mpr hc)] at hst
    rw [hst] at hrest
    have hne2 : ∀ y ∈ (x :: r).dropLast, y ≠ [] := by
      intro y hy
      apply hne
      simp only [List.dropLast_cons₂, List.mem_cons]
      exact Or.inr hy
    rw [ih _ st1 x (by simp [FileSystem.nodes_store]) hne2 hrest]
    simp [TextEditor.setHistory, TextEditor.history]

/-- A successful `strReplace` followed by `undoEdit` on the same path: the undo
succeeds and writes the old content over the new one. -/
theorem replace_then_undo (st : State) (request undo : Request) (content : GoString)
    (hnode : st.disk.nodes request.Path = some (Node.file content))
    (hok : (TextEditor.strReplace st request).1.isOk = true)
    (hpath : undo.Path = request.Path) :
    (TextEditor.undoEdit (TextEditor.strReplace st request).2 undo).1 =
        Result.ok { Message := msgUndone request.Path } ∧
    ∃ data, (TextEditor.undoEdit (TextEditor.strReplace st request).2 undo).2.disk =
      (st.disk.store request.Path data).store request.Path content := by
  obtain ⟨j, _, hst⟩ := strReplace_ok_state st request content hnode hok
  obtain ⟨_, _, hw⟩ := strReplace_ok_inv st request content hnode hok
  have hh : (TextEditor.strReplace st request).2.editor.fileHistory undo.Path =
      some (st.editor.history request.Path ++ [content]) := by
    rw [hst, hpath]; simp [TextEditor.setHistory]
  have hwr := WriteFile_ok_of (TextEditor.strReplace st request).2.disk undo.Path content
    (by rw [hst, hpath]; simp [FileSystem.nodes_store])
    (by rw [hst, hpath]; simpa [FileSystem.nodes_store] using hw)
  have hun := undoEdit_run _ undo _ _ _ hh hwr
  refine ⟨by rw [hun, hpath], content.take j ++ request.NewStr ++
    content.drop (j + request.OldStr.length), ?_⟩
  rw [hun, hpath, hst]

/-- The two errors of the size checks of `view` are different texts. -/
theorem errTooLarge_ne_errTooManyChars (path : GoString) (size count : Nat) :
    errTooLarge path size ≠ errTooManyChars path count := by
  have h1 : bytes "' is too large (" = 39 :: 32 :: 105 :: bytes "s too large (" := by decide
  have h2 : bytes "' has too many characters (" =
      39 :: 32 :: 104 :: bytes "as too many characters (" := by decide
  unfold errTooLarge errTooManyChars
  rw [h1, h2]
  simp only [List.append_assoc, List.cons_append]
  intro h
  have h3 := List.append_cancel_left (List.append_cancel_left h)
  simp at h3

theorem ite_eq_of_not {α : Type} {c : Prop} [Decidable c] {x y z : α} (hc : ¬ c)
    (hy : y = z) : (if c then x else y) = z := by
  rw [if_neg hc]; exact hy

theorem Index_of_firstIndex (content old : GoString) (j : Nat)
    (hj : strings.firstIndex old content = some j) :
    strings.Index content old = (j : Int) := by
  simp [strings.Index, hj]

theorem firstIndex_of_Index (content old : GoString) (j : Nat)
    (h : strings.Index content old = (j : Int)) :
    strings.firstIndex old content = some j := by
  unfold strings.Index at h
  cases hq : strings.firstIndex old content with
  | none => rw [hq] at h; simp only at h; omega
  | some i => rw [hq] at h; simp only at h; congr 1; omega

/-- The bounds `strReplace` computes, in closed form: with `L` newlines before the
match and `k` newlines in `new_str`, the snippet goes from line `max(0, L-4)` to line
`min(L+4+k, len(lines)-1)`, and the content after the replacement has at least
`L + k + 1` lines. -/
theorem snippetRange_spec (content old new : GoString) (j : Nat)
    (hj : strings.firstIndex old content = some j)
    (hc : strings.Count content old ≠ 0) :
    strings.Replace content old new 1 =
        content.take j ++ new ++ content.drop (j + old.length) ∧
    ((strings.Split (strings.Replace content old new 1) (bytes "\n")).length : Int) =
        ((content.take j).count 10 : Int) + (new.count 10 : Int) +
          ((content.drop (j + old.length)).count 10 : Int) + 1 ∧
    snippetRange content old new (strings.Replace content old new 1) =
      (max 0 (((content.take j).count 10 : Int) - 4),
        min (((content.take j).count 10 : Int) + 4 + (new.count 10 : Int))
          (((strings.Split (strings.Replace content old new 1) (bytes "\n")).length : Int) - 1)) := by
  have hrep := strings.Replace_one content old new j hj hc
  have hidx := Index_of_firstIndex content old j hj
  refine ⟨hrep, ?_, ?_⟩
  · rw [hrep, strings.length_Split_newline]
    simp only [List.count_append]
    push_cast
    ring
  · unfold snippetRange
    simp only [hidx, Int.toNat_ofNat, strings.Count_newline, SNIPPET_LINES]
    rw [hrep, strings.length_Split_newline]
    simp only [List.count_append, max_def, min_def]
    refine Prod.ext ?_ ?_
    · simp only
      split_ifs <;> omega
    · simp only
      split_ifs <;> omega

/-- The run of `strReplace` on a readable file with exactly one instance of `old_str`
and a write that works, with the response written out: the snippet is the slice
`lines[startLine : endLine+1]` for the bounds of `snippetRange`. -/
theorem strReplace_result (st : State) (request : Request) (content : GoString) (j : Nat)
    (hnode : st.disk.nodes request.Path = some (Node.file content))
    (hr : st.disk.readFault request.Path = none)
    (hw : st.disk.writeFault request.Path = none)
    (hc : strings.Count content request.OldStr = 1)
    (hj : strings.firstIndex request.OldStr content = some j) :
    TextEditor.strReplace st request =
      (Result.ok { Message :=
          (bytes "The file " ++ request.Path ++
            bytes " has been edited, and the section now reads:\n" ++
            (bytes "```" ++ strings.TrimPrefix (filepath.Ext request.Path) (bytes ".") ++
              bytes "\n" ++
              strings.Join
                (((strings.Split (strings.Replace content request.OldStr request.NewStr 1)
                    (bytes "\n")).take
                  ((snippetRange content request.OldStr request.NewStr
                    (strings.Replace content request.OldStr request.NewStr 1)).2 + 1).toNat).drop
                  (snippetRange content request.OldStr request.NewStr
                    (strings.Replace content request.OldStr request.NewStr 1)).1.toNat)
                (bytes "\n") ++
              bytes "\n```") ++
            bytes "\nReview the changes above for errors. Undo and edit the file again if necessary!") },
        { editor := st.editor.setHistory request.Path
            (st.editor.history request.Path ++ [content]),
          disk := st.disk.store request.Path
            (strings.Replace content request.OldStr request.NewStr 1) }) := by
  have hidx := Index_of_firstIndex content request.OldStr j hj
  obtain ⟨hrep, hlen, hrange⟩ :=
    snippetRange_spec content request.OldStr request.NewStr j hj (by omega)
  have hbounds : ¬ ((snippetRange content request.OldStr request.NewStr
        (strings.Replace content request.OldStr request.NewStr 1)).1 < 0 ∨
      (snippetRange content request.OldStr request.NewStr
        (strings.Replace content request.OldStr request.NewStr 1)).2 + 1 <
        (snippetRange content request.OldStr request.NewStr
          (strings.Replace content request.OldStr request.NewStr 1)).1 ∨
      ((strings.Split (strings.Replace content request.OldStr request.NewStr 1)
          (bytes "\n")).length : Int) <
        (snippetRange content request.OldStr request.NewStr
          (strings.Replace content request.OldStr request.NewStr 1)).2 + 1) := by
    rw [hrange]
    simp only [max_def, min_def]
    split_ifs <;> omega
  unfold TextEditor.strReplace
  simp only [os.Stat, os.ReadFile, os.WriteFile, hnode, hr, hw, hc]
  have h1 : ¬ ((1 : Nat) > 1) := by decide
  have h2 : ¬ ((1 : Nat) = 0) := by decide
  have h3 : ¬ (strings.Index content request.OldStr = -1) := by rw [hidx]; omega
  rw [if_neg h1, if_neg h2, if_neg h3]
  exact ite_eq_of_not hbounds rfl

/-- The Go slice `lines[s : e+1]` is the list of the elements from `s` to `e`. -/
theorem slice_eq_sliceInclusive (lines : List GoString) (s e : Int) (hs : 0 ≤ s)
    (hse : s ≤ e) :
    (lines.take (e + 1).toNat).drop s.toNat = sliceInclusive lines s.toNat e.toNat := by
  unfold sliceInclusive
  rw [List.take_drop]
  have h : s.toNat + (e.toNat + 1 - s.toNat) = (e + 1).toNat := by omega
  rw [h]

/-- The response of a successful `strReplace` is the message the specification words,
for the match at offset `j`. -/
theorem strReplace_ok_response (st : State) (request : Request) (content : GoString)
    (j : Nat) (resp : Response)
    (hnode : st.disk.nodes request.Path = some (Node.file content))
    (hidx : strings.Index content request.OldStr = (j : Int))
    (hres : (TextEditor.strReplace st request).1 = Result.ok resp) :
    resp = { FileText := [],
             Message := specMessage request.Path ((content.take j).count 10)
               (request.NewStr.count 10)
               (strings.Split
                 (content.take j ++ request.NewStr ++ content.drop (j + request.OldStr.length))
                 (bytes "\n")) } ∧
    (TextEditor.strReplace st request).2.disk.nodes request.Path =
      some (Node.file
        (content.take j ++ request.NewStr ++ content.drop (j + request.OldStr.length))) ∧
    ((strings.Split
        (content.take j ++ request.NewStr ++ content.drop (j + request.OldStr.length))
        (bytes "\n")).length : Int) =
      ((content.take j).count 10 : Int) + (request.NewStr.count 10 : Int) +
        ((content.drop (j + request.OldStr.length)).count 10 : Int) + 1 := by
  have hok : (TextEditor.strReplace st request).1.isOk = true := by rw [hres]; rfl
  obtain ⟨hr, hc, hw⟩ := strReplace_ok_inv st request content hnode hok
  have hj := firstIndex_of_Index content request.OldStr j hidx
  obtain ⟨hrep, hlen, hrange⟩ :=
    snippetRange_spec content request.OldStr request.NewStr j hj (by omega)
  have hrun := strReplace_result st request content j hnode hr hw hc hj
  rw [hrun] at hres
  rw [hrun]
  simp only [Result.ok.injEq] at hres
  rw [hrep] at hlen
  refine ⟨?_, by simp [FileSystem.nodes_store, hrep], hlen⟩
  rw [← hres, hrange, hrep]
  rw [slice_eq_sliceInclusive _ _ _ (le_max_left _ _)
    (by rw [hlen]; simp only [max_def, min_def]; split_ifs <;> omega)]
  rfl

theorem Count_nil_old (content : GoString) :
    strings.Count content [] = utf8.RuneCountInString content + 1 := rfl

/-- With an empty `old_str` the count is 1 exactly for the empty content. -/
theorem Count_nil_old_eq_one (content : GoString) :
    strings.Count content [] = 1 ↔ content = [] := by
  rw [Count_nil_old]
  cases content with
  | nil => simp [utf8.RuneCountInString_nil]
  | cons c cs =>
    have := utf8.RuneCountInString_pos c cs
    constructor
    · intro h; omega
    · intro h; cases h

theorem writeError_ne_unexpected (err : GoString) :
    bytes "Failed to write file: " ++ err ≠ bytes "Unexpected error: oldStr not found" := by
  have h1 : bytes "Failed to write file: " = 70 :: bytes "ailed to write file: " := by decide
  have h2 : bytes "Unexpected error: oldStr not found" =
      85 :: bytes "nexpected error: oldStr not found" := by decide
  rw [h1, h2]
  intro h
  simp at h

/-- `view` touches nothing. -/
theorem view_frame (st : State) (request : Request) (q : GoString) :
    (TextEditor.view st request).2.disk.nodes q = st.disk.nodes q ∧
    (TextEditor.view st request).2.editor.fileHistory q = st.editor.fileHistory q := by
  rw [view_state]; exact ⟨rfl, rfl⟩

/-- `write` touches no file but the one its path leads to and no stack but the one
of its path. -/
theorem write_frame (st : State) (request : Request) (q : GoString) :
    (st.disk.target q ≠ st.disk.target request.Path →
      (TextEditor.write st request).2.disk.nodes q = st.disk.nodes q) ∧
    (q ≠ request.Path →
      (TextEditor.write st request).2.editor.fileHistory q = st.editor.fileHistory q) := by
  cases hn : st.disk.nodes request.Path with
  | none =>
    cases hw : st.disk.writeFault request.Path with
    | some err => simp [TextEditor.write, os.Stat, os.WriteFile, hn, hw]
    | none =>
      refine ⟨fun hq => ?_, fun _ => ?_⟩
      · simp [TextEditor.write, os.Stat, os.WriteFile, hn, hw, FileSystem.nodes_store, hq]
      · simp [TextEditor.write, os.Stat, os.WriteFile, hn, hw]
  | some node =>
    cases node with
    | dir => simp [TextEditor.write, os.Stat, os.WriteFile, hn]
    | file c =>
      cases hr : st.disk.readFault request.Path with
      | some err => simp [TextEditor.write, os.Stat, os.ReadFile, hn, hr]
      | none =>
        cases hw : st.disk.writeFault request.Path with
        | some err => simp [TextEditor.write, os.Stat, os.ReadFile, os.WriteFile, hn, hr, hw]
        | none =>
          rw [write_run_file st request c hn hr hw]
          refine ⟨fun hq => by simp [FileSystem.nodes_store, hq], fun hq => ?_⟩
          simp only
          split <;> simp [TextEditor.setHistory, hq]

/-- `strReplace` touches no file but the one its path leads to and no stack but the
one of its path. -/
theorem strReplace_frame (st : State) (request : Request) (q : GoString) :
    (st.disk.target q ≠ st.disk.target request.Path →
      (TextEditor.strReplace st request).2.disk.nodes q = st.disk.nodes q) ∧
    (q ≠ request.Path →
      (TextEditor.strReplace st request).2.editor.fileHistory q =
        st.editor.fileHistory q) := by
  cases hn : st.disk.nodes request.Path with
  | none => simp [TextEditor.strReplace, os.Stat, hn]
  | some node =>
    cases node with
    | dir => simp [TextEditor.strReplace, os.Stat, os.ReadFile, hn]
    | file c =>
      cases hr : st.disk.readFault request.Path with
      | some err =>
        rw [strReplace_read_fault st request c err hn hr]
        exact ⟨fun _ => rfl, fun _ => rfl⟩
      | none =>
        rcases Nat.lt_trichotomy (strings.Count c request.OldStr) 1 with h | h | h
        · rw [strReplace_count_zero st request c hn hr (by omega)]
          exact ⟨fun _ => rfl, fun _ => rfl⟩
        · cases hw : st.disk.writeFault request.Path with
          | some err =>
            rw [strReplace_write_fault st request c err hn hr h hw]
            exact ⟨fun _ => rfl, fun hq => by simp [TextEditor.setHistory, hq]⟩
          | none =>
            obtain ⟨j, hj⟩ := strings.firstIndex_of_count_pos c request.OldStr (by omega)
            obtain ⟨resp, hrun⟩ := strReplace_run st request c j hn hr hw h hj
            rw [hrun]
            exact ⟨fun hq => by simp [FileSystem.nodes_store, hq],
              fun hq => by simp [TextEditor.setHistory, hq]⟩
        · rw [strReplace_count_many st request c hn hr (by omega)]
          exact ⟨fun _ => rfl, fun _ => rfl⟩

/-- `undoEdit` touches no file but the one its path leads to and no stack but the one
of its path. -/
theorem undoEdit_frame (st : State) (request : Request) (q : GoString) :
    (st.disk.target q ≠ st.disk.target request.Path →
      (TextEditor.undoEdit st request).2.disk.nodes q = st.disk.nodes q) ∧
    (q ≠ request.Path →
      (TextEditor.undoEdit st request).2.editor.fileHistory q = st.editor.fileHistory q) := by
  cases hf : st.editor.fileHistory request.Path with
  | none =>
    rw [undoEdit_no_history st request (by simp [TextEditor.history, hf])]
    exact ⟨fun _ => rfl, fun _ => rfl⟩
  | some l =>
    rcases List.eq_nil_or_concat l with hl | ⟨h, e, hl⟩
    · rw [undoEdit_no_history st request (by simp [TextEditor.history, hf, hl])]
      exact ⟨fun _ => rfl, fun _ => rfl⟩
    · rw [hl, List.concat_eq_append] at hf
      cases hw : os.WriteFile st.disk request.Path e with
      | error err =>
        rw [undoEdit_write_fault st request h e err hf hw]
        exact ⟨fun _ => rfl, fun _ => rfl⟩
      | ok disk1 =>
        rw [undoEdit_run st request h e disk1 hf hw, WriteFile_ok_eq _ _ _ _ hw]
        exact ⟨fun hq => by simp [FileSystem.nodes_store, hq],
          fun hq => by simp [TextEditor.setHistory, hq]⟩

/-- `editText` touches no file but the one the path of the request leads to and no
stack but the one of that path, whatever the command. -/
theorem editText_frame (st : State) (request : Request) (q : GoString) :
    (st.disk.target q ≠ st.disk.target request.Path →
      (TextEditor.editText st request).2.disk.nodes q = st.disk.nodes q) ∧
    (q ≠ request.Path →
      (TextEditor.editText st request).2.editor.fileHistory q = st.editor.fileHistory q) := by
  unfold TextEditor.editText
  split_ifs
  · exact ⟨fun _ => (view_frame st request q).1, fun _ => (view_frame st request q).2⟩
  · exact write_frame st request q
  · exact strReplace_frame st request q
  · exact undoEdit_frame st request q
  · exact ⟨fun _ => rfl, fun _ => rfl⟩

/-- The three steps of a call of `write`, taken with no other call in between, are
the method `write`. -/
theorem writeStep_thrice (st : State) (request : Request) :
    writeStep (writeStep (writeStep st request WritePc.start).1 request
        (writeStep st request WritePc.start).2).1 request
      (writeStep (writeStep st request WritePc.start).1 request
        (writeStep st request WritePc.start).2).2 =
      ((TextEditor.write st request).2, WritePc.done (TextEditor.write st request).1) := by
  cases hn : st.disk.nodes request.Path with
  | none =>
    cases hw : st.disk.writeFault request.Path with
    | some err => simp [TextEditor.write, writeStep, os.Stat, os.WriteFile, hn, hw]
    | none => simp [TextEditor.write, writeStep, os.Stat, os.WriteFile, hn, hw, FileSystem.nodes_store]
  | some node =>
    cases node with
    | dir => simp [TextEditor.write, writeStep, os.Stat, os.WriteFile, hn]
    | file c =>
      cases hr : st.disk.readFault request.Path with
      | some err => simp [TextEditor.write, writeStep, os.Stat, os.ReadFile, hn, hr]
      | none =>
        cases hw : st.disk.writeFault request.Path with
        | some err =>
          simp [TextEditor.write, writeStep, os.Stat, os.ReadFile, os.WriteFile, hn, hr, hw]
        | none =>
          simp [TextEditor.write, writeStep, os.Stat, os.ReadFile, os.WriteFile, hn, hr, hw,
            FileSystem.nodes_store]

/-! ## str_replace -/

/-- C1: on a readable regular file whose write-back works, `strReplace` succeeds if and
only if `strings.Count`, the number of non-overlapping instances of `old_str` in the
content (for the empty `old_str`: the number of runes plus one), is exactly 1; with no
instance it returns the "does not appear in the file" error, with two or more the
"appears multiple times" error. -/
theorem strReplace_succeeds_iff_count_one (st : State) (request : Request)
    (content : GoString)
    (hnode : st.disk.nodes request.Path = some (Node.file content))
    (hr : st.disk.readFault request.Path = none)
    (hw : st.disk.writeFault request.Path = none) :
    ((TextEditor.strReplace st request).1.isOk = true ↔
        strings.Count content request.OldStr = 1) ∧
    (strings.Count content request.OldStr = 0 →
        (TextEditor.strReplace st request).1 = Result.error errNoMatch) ∧
    (2 ≤ strings.Count content request.OldStr →
        (TextEditor.strReplace st request).1 = Result.error errMultiple) := by
  refine ⟨⟨fun hok => (strReplace_ok_inv st request content hnode hok).2.1, fun hc => ?_⟩,
    fun hc => ?_, fun hc => ?_⟩
  · obtain ⟨j, hj⟩ := strings.firstIndex_of_count_pos content request.OldStr (by omega)
    obtain ⟨resp, hrun⟩ := strReplace_run st request content j hnode hr hw hc hj
    rw [hrun]; rfl
  · rw [strReplace_count_zero st request content hnode hr hc]
  · rw [strReplace_count_many st request content hnode hr hc]

/-- C1 at the file "Old Old Old" with `old_str` "Old" (three instances): the call does
not succeed and returns the "appears multiple times" error. -/
theorem strReplace_succeeds_iff_count_one_witness :
    (State.fresh (bytes "f") (bytes "Old Old Old")).disk.nodes (bytes "f") =
        some (Node.file (bytes "Old Old Old")) ∧
    strings.Count (bytes "Old Old Old") (bytes "Old") = 3 ∧
    (TextEditor.strReplace (State.fresh (bytes "f") (bytes "Old Old Old"))
        { Path := bytes "f", OldStr := bytes "Old" }).1.isOk = false ∧
    (TextEditor.strReplace (State.fresh (bytes "f") (bytes "Old Old Old"))
        { Path := bytes "f", OldStr := bytes "Old" }).1 = Result.error errMultiple := by
  have h := strReplace_succeeds_iff_count_one (State.fresh (bytes "f") (bytes "Old Old Old"))
    { Path := bytes "f", OldStr := bytes "Old" } (bytes "Old Old Old") rfl rfl rfl
  have hc : strings.Count (bytes "Old Old Old") (bytes "Old") = 3 := by decide
  refine ⟨rfl, hc, ?_, h.2.2 (by rw [hc]; decide)⟩
  cases hq : (TextEditor.strReplace (State.fresh (bytes "f") (bytes "Old Old Old"))
        { Path := bytes "f", OldStr := bytes "Old" }).1.isOk with
  | false => rfl
  | true => rw [h.1.mp hq] at hc; cases hc

/-- C2: when `strings.Count` finds no instance or at least two instances of `old_str`
in the file, `strReplace` returns an error and leaves the state as it was: the file at
the path holds the same content and the history of every path is the same. -/
theorem strReplace_failure_changes_nothing (st : State) (request : Request)
    (content : GoString)
    (hnode : st.disk.nodes request.Path = some (Node.file content))
    (hc : strings.Count content request.OldStr = 0 ∨
      2 ≤ strings.Count content request.OldStr) :
    (∃ msg, (TextEditor.strReplace st request).1 = Result.error msg) ∧
    (TextEditor.strReplace st request).2.disk.nodes request.Path =
        some (Node.file content) ∧
    (∀ p, (TextEditor.strReplace st request).2.editor.fileHistory p =
        st.editor.fileHistory p) ∧
    (TextEditor.strReplace st request).2 = st := by
  have key : ∃ msg, TextEditor.strReplace st request = (Result.error msg, st) := by
    cases hr : st.disk.readFault request.Path with
    | some err => exact ⟨_, strReplace_read_fault st request content err hnode hr⟩
    | none =>
      rcases hc with hc | hc
      · exact ⟨_, strReplace_count_zero st request content hnode hr hc⟩
      · exact ⟨_, strReplace_count_many st request content hnode hr hc⟩
  obtain ⟨msg, hmsg⟩ := key
  rw [hmsg]
  exact ⟨⟨msg, rfl⟩, hnode, fun _ => rfl, rfl⟩

/-- C2 at the file "Old Old Old" with `old_str` "Old". -/
theorem strReplace_failure_changes_nothing_witness :
    (State.fresh (bytes "f") (bytes "Old Old Old")).disk.nodes (bytes "f") =
        some (Node.file (bytes "Old Old Old")) ∧
    2 ≤ strings.Count (bytes "Old Old Old") (bytes "Old") ∧
    (TextEditor.strReplace (State.fresh (bytes "f") (bytes "Old Old Old"))
        { Path := bytes "f", OldStr := bytes "Old" }).2 =
      State.fresh (bytes "f") (bytes "Old Old Old") :=
  ⟨rfl, by decide,
    (strReplace_failure_changes_nothing (State.fresh (bytes "f") (bytes "Old Old Old"))
      { Path := bytes "f", OldStr := bytes "Old" } (bytes "Old Old Old") rfl
      (Or.inr (by decide))).2.2.2⟩


/-- C3, as stated, fails where instances of `old_str` overlap: "aaa" holds one
non-overlapping instance of "aa" and is "a" ++ "aa" ++ "", the call succeeds, and the file
then holds "ba" (the instance at the front was replaced), not "a" ++ "b" ++ "". -/
theorem strReplace_overlap_counterexample :
    (State.fresh (bytes "f") (bytes "aaa")).disk.nodes (bytes "f") =
        some (Node.file (bytes "a" ++ bytes "aa" ++ [])) ∧
    strings.Count (bytes "a" ++ bytes "aa" ++ []) (bytes "aa") = 1 ∧
    (TextEditor.strReplace (State.fresh (bytes "f") (bytes "aaa"))
        { Path := bytes "f", OldStr := bytes "aa", NewStr := bytes "b" }).1.isOk = true ∧
    (TextEditor.strReplace (State.fresh (bytes "f") (bytes "aaa"))
        { Path := bytes "f", OldStr := bytes "aa", NewStr := bytes "b" }).2.disk.nodes
          (bytes "f") = some (Node.file (bytes "ba")) ∧
    (TextEditor.strReplace (State.fresh (bytes "f") (bytes "aaa"))
        { Path := bytes "f", OldStr := bytes "aa", NewStr := bytes "b" }).2.disk.nodes
          (bytes "f") ≠ some (Node.file (bytes "a" ++ bytes "b" ++ [])) := by
  refine ⟨rfl, by decide, by decide, by decide, by decide⟩

/-- C3, amended: when the content is `P ++ old_str ++ S` with `P` the part before the
first instance of `old_str` (`strings.Index` of the content is the length of `P`), a
successful `strReplace` leaves the file holding exactly `P ++ new_str ++ S`. -/
theorem strReplace_replaces_first_instance (st : State) (request : Request)
    (P S : GoString)
    (hnode : st.disk.nodes request.Path = some (Node.file (P ++ request.OldStr ++ S)))
    (hfirst : strings.Index (P ++ request.OldStr ++ S) request.OldStr = (P.length : Int))
    (hok : (TextEditor.strReplace st request).1.isOk = true) :
    (TextEditor.strReplace st request).2.disk.nodes request.Path =
      some (Node.file (P ++ request.NewStr ++ S)) := by
  obtain ⟨j, hj, hst⟩ := strReplace_ok_state st request _ hnode hok
  have hjP : j = P.length := by
    simp only [strings.Index, hj] at hfirst
    exact_mod_cast hfirst
  subst hjP
  rw [hst]
  simp [FileSystem.nodes_store, List.append_assoc]

set_option maxRecDepth 100000 in
/-- C3 (amended) at the file "Hello Old World\nSecond Line\nThird Line" with "Old"
replaced by "New": the first line becomes "Hello New World". -/
theorem strReplace_replaces_first_instance_witness :
    (State.fresh (bytes "f") (bytes "Hello Old World\nSecond Line\nThird Line")).disk.nodes
        (bytes "f") =
      some (Node.file (bytes "Hello " ++ bytes "Old" ++ bytes " World\nSecond Line\nThird Line")) ∧
    strings.Index (bytes "Hello " ++ bytes "Old" ++ bytes " World\nSecond Line\nThird Line")
        (bytes "Old") = ((bytes "Hello ").length : Int) ∧
    (TextEditor.strReplace
        (State.fresh (bytes "f") (bytes "Hello Old World\nSecond Line\nThird Line"))
        { Path := bytes "f", OldStr := bytes "Old", NewStr := bytes "New" }).2.disk.nodes
          (bytes "f") =
      some (Node.file (bytes "Hello " ++ bytes "New" ++ bytes " World\nSecond Line\nThird Line")) :=
  ⟨by decide, by decide,
    strReplace_replaces_first_instance
      (State.fresh (bytes "f") (bytes "Hello Old World\nSecond Line\nThird Line"))
      { Path := bytes "f", OldStr := bytes "Old", NewStr := bytes "New" }
      (bytes "Hello ") (bytes " World\nSecond Line\nThird Line")
      (by decide) (by decide) (by decide)⟩

/-- C4: a successful `strReplace` on a file holding `content` (which then holds exactly
one instance of `old_str`) appends exactly one entry, `content`, to the history of the
path, and leaves the history of every other path as it was. -/
theorem strReplace_pushes_old_content (st : State) (request : Request)
    (content : GoString)
    (hnode : st.disk.nodes request.Path = some (Node.file content))
    (hok : (TextEditor.strReplace st request).1.isOk = true) :
    strings.Count content request.OldStr = 1 ∧
    (TextEditor.strReplace st request).2.editor.fileHistory request.Path =
      some (st.editor.history request.Path ++ [content]) ∧
    (TextEditor.strReplace st request).2.editor.history request.Path =
      st.editor.history request.Path ++ [content] ∧
    (∀ p, p ≠ request.Path →
      (TextEditor.strReplace st request).2.editor.fileHistory p = st.editor.fileHistory p) := by
  obtain ⟨j, _, hst⟩ := strReplace_ok_state st request content hnode hok
  refine ⟨(strReplace_ok_inv st request content hnode hok).2.1, ?_, ?_, ?_⟩
  · rw [hst]; simp [TextEditor.setHistory]
  · rw [hst]; simp [TextEditor.setHistory, TextEditor.history]
  · intro p hp
    rw [hst]; simp [TextEditor.setHistory, hp]

/-- C4 at the file "Original content" with "Original" replaced by "Modified" in a new
editor: the history of the path is the one entry "Original content". -/
theorem strReplace_pushes_old_content_witness :
    (State.fresh (bytes "f") (bytes "Original content")).disk.nodes (bytes "f") =
      some (Node.file (bytes "Original content")) ∧
    (TextEditor.strReplace (State.fresh (bytes "f") (bytes "Original content"))
        { Path := bytes "f", OldStr := bytes "Original", NewStr := bytes "Modified" }).1.isOk
      = true ∧
    (TextEditor.strReplace (State.fresh (bytes "f") (bytes "Original content"))
        { Path := bytes "f", OldStr := bytes "Original", NewStr := bytes "Modified"
          }).2.editor.history (bytes "f") = [] ++ [bytes "Original content"] :=
  ⟨rfl, by decide,
    (strReplace_pushes_old_content (State.fresh (bytes "f") (bytes "Original content"))
      { Path := bytes "f", OldStr := bytes "Original", NewStr := bytes "Modified" }
      (bytes "Original content") rfl (by decide)).2.2.1⟩


/-! ## undo_edit -/

/-- C5: a successful `strReplace` on a file holding `content`, followed at once by
`undoEdit` on the same path: the undo succeeds (the path could be written a moment
before), the file holds `content` again and the history stack of the path, the value of
`f.fileHistory[path]`, is what it was before the replacement; if that stack was empty, a
second `undoEdit` returns the "No edit history found" error. -/
theorem undoEdit_after_strReplace (st : State) (request undo : Request)
    (content : GoString)
    (hnode : st.disk.nodes request.Path = some (Node.file content))
    (hok : (TextEditor.strReplace st request).1.isOk = true)
    (hpath : undo.Path = request.Path) :
    (TextEditor.undoEdit (TextEditor.strReplace st request).2 undo).1 =
        Result.ok { Message := msgUndone request.Path } ∧
    (TextEditor.undoEdit (TextEditor.strReplace st request).2 undo).2.disk.nodes
        request.Path = some (Node.file content) ∧
    (TextEditor.undoEdit (TextEditor.strReplace st request).2 undo).2.editor.history
        request.Path = st.editor.history request.Path ∧
    (st.editor.history request.Path = [] →
      (TextEditor.undoEdit
          (TextEditor.undoEdit (TextEditor.strReplace st request).2 undo).2 undo).1 =
        Result.error (errNoHistory request.Path)) := by
  obtain ⟨j, _, hst⟩ := strReplace_ok_state st request content hnode hok
  obtain ⟨_, _, hw⟩ := strReplace_ok_inv st request content hnode hok
  have hh : (TextEditor.strReplace st request).2.editor.fileHistory undo.Path =
      some (st.editor.history request.Path ++ [content]) := by
    rw [hst, hpath]; simp [TextEditor.setHistory]
  have hwr := WriteFile_ok_of (TextEditor.strReplace st request).2.disk undo.Path content
    (by rw [hst, hpath]; simp [FileSystem.nodes_store])
    (by rw [hst, hpath]; simpa [FileSystem.nodes_store] using hw)
  have hun := undoEdit_run _ undo _ _ _ hh hwr
  have hhist : (TextEditor.undoEdit (TextEditor.strReplace st request).2 undo).2.editor.history
      request.Path = st.editor.history request.Path := by
    rw [hun, hpath]; simp [TextEditor.setHistory, TextEditor.history]
  refine ⟨by rw [hun, hpath], ?_, hhist, fun hempty => ?_⟩
  · rw [hun, hpath]; simp [FileSystem.nodes_store]
  · have h2 := undoEdit_no_history
      (TextEditor.undoEdit (TextEditor.strReplace st request).2 undo).2 undo
      (by rw [hpath, hhist, hempty])
    rw [h2, hpath]

/-- C5 at the file "Original content" with "Original" replaced by "Modified" in a new
editor: the undo brings "Original content" back and a second undo finds no history. -/
theorem undoEdit_after_strReplace_witness :
    (State.fresh (bytes "f") (bytes "Original content")).disk.nodes (bytes "f") =
      some (Node.file (bytes "Original content")) ∧
    (TextEditor.strReplace (State.fresh (bytes "f") (bytes "Original content"))
        { Path := bytes "f", OldStr := bytes "Original", NewStr := bytes "Modified" }).1.isOk
      = true ∧
    (TextEditor.undoEdit
        (TextEditor.strReplace (State.fresh (bytes "f") (bytes "Original content"))
          { Path := bytes "f", OldStr := bytes "Original", NewStr := bytes "Modified" }).2
        { Path := bytes "f" }).2.disk.nodes (bytes "f") =
      some (Node.file (bytes "Original content")) :=
  ⟨rfl, by decide,
    (undoEdit_after_strReplace (State.fresh (bytes "f") (bytes "Original content"))
      { Path := bytes "f", OldStr := bytes "Original", NewStr := bytes "Modified" }
      { Path := bytes "f" } (bytes "Original content") rfl (by decide) rfl).2.1⟩

/-- C6: with the history stack `h ++ [e]` for the path, a successful `undoEdit` leaves
the file holding exactly `e` and the stack `h`; no other stack is touched, and no file
but the one the path leads to. -/
theorem undoEdit_pops_last (st : State) (request : Request) (h : List GoString)
    (e : GoString)
    (hh : st.editor.fileHistory request.Path = some (h ++ [e]))
    (hok : (TextEditor.undoEdit st request).1.isOk = true) :
    (TextEditor.undoEdit st request).2.disk.nodes request.Path = some (Node.file e) ∧
    (TextEditor.undoEdit st request).2.editor.fileHistory request.Path = some h ∧
    (∀ p, p ≠ request.Path →
      (TextEditor.undoEdit st request).2.editor.fileHistory p = st.editor.fileHistory p) ∧
    (∀ p, st.disk.target p ≠ st.disk.target request.Path →
      (TextEditor.undoEdit st request).2.disk.nodes p = st.disk.nodes p) := by
  rw [undoEdit_ok_state st request h e hh hok]
  refine ⟨by simp [FileSystem.nodes_store], by simp [TextEditor.setHistory], ?_, ?_⟩
  · intro p hp; simp [TextEditor.setHistory, hp]
  · intro p hp; simp [FileSystem.nodes_store, hp]

/-- C6 with the stack ["one", "two"] and a file holding "three": the undo writes "two"
and leaves the stack ["one"]. -/
theorem undoEdit_pops_last_witness :
    ({ editor := newTextEditor.setHistory (bytes "f") ([bytes "one"] ++ [bytes "two"]),
       disk := FileSystem.single (bytes "f") (bytes "three") } : State).editor.fileHistory
        (bytes "f") = some ([bytes "one"] ++ [bytes "two"]) ∧
    (TextEditor.undoEdit
        { editor := newTextEditor.setHistory (bytes "f") ([bytes "one"] ++ [bytes "two"]),
          disk := FileSystem.single (bytes "f") (bytes "three") }
        { Path := bytes "f" }).2.disk.nodes (bytes "f") = some (Node.file (bytes "two")) ∧
    (TextEditor.undoEdit
        { editor := newTextEditor.setHistory (bytes "f") ([bytes "one"] ++ [bytes "two"]),
          disk := FileSystem.single (bytes "f") (bytes "three") }
        { Path := bytes "f" }).2.editor.fileHistory (bytes "f") = some [bytes "one"] :=
  ⟨rfl,
    (undoEdit_pops_last
      { editor := newTextEditor.setHistory (bytes "f") ([bytes "one"] ++ [bytes "two"]),
        disk := FileSystem.single (bytes "f") (bytes "three") }
      { Path := bytes "f" } [bytes "one"] (bytes "two") rfl (by decide)).1,
    (undoEdit_pops_last
      { editor := newTextEditor.setHistory (bytes "f") ([bytes "one"] ++ [bytes "two"]),
        disk := FileSystem.single (bytes "f") (bytes "three") }
      { Path := bytes "f" } [bytes "one"] (bytes "two") rfl (by decide)).2.1⟩

/-- C7: when the path has no history (the key is not in the map, or its stack is
empty), `undoEdit` returns the error "No edit history found for file '<path>'" and
leaves every file and every history stack as it was. -/
theorem undoEdit_without_history (st : State) (request : Request)
    (hh : st.editor.fileHistory request.Path = none ∨
      st.editor.fileHistory request.Path = some []) :
    (TextEditor.undoEdit st request).1 =
      Result.error
        (bytes "No edit history found for file '" ++ request.Path ++ bytes "'") ∧
    (∀ p, (TextEditor.undoEdit st request).2.disk.nodes p = st.disk.nodes p) ∧
    (∀ p, (TextEditor.undoEdit st request).2.editor.fileHistory p =
      st.editor.fileHistory p) ∧
    (TextEditor.undoEdit st request).2 = st := by
  rw [undoEdit_no_history st request ((history_eq_nil_iff _ _).mpr hh)]
  exact ⟨rfl, fun _ => rfl, fun _ => rfl, rfl⟩

/-- C7 for "nonexistent.txt" in a new editor. -/
theorem undoEdit_without_history_witness :
    State.blank.editor.fileHistory (bytes "nonexistent.txt") = none ∧
    (TextEditor.undoEdit State.blank { Path := bytes "nonexistent.txt" }).1 =
      Result.error
        (bytes "No edit history found for file '" ++ bytes "nonexistent.txt" ++ bytes "'") ∧
    (TextEditor.undoEdit State.blank { Path := bytes "nonexistent.txt" }).2 = State.blank :=
  ⟨rfl,
    (undoEdit_without_history State.blank { Path := bytes "nonexistent.txt" } (Or.inl rfl)).1,
    (undoEdit_without_history State.blank { Path := bytes "nonexistent.txt" }
      (Or.inl rfl)).2.2.2⟩


/-- C8: starting with an empty history for the path, after successful `strReplace`
calls that overwrote the contents `cs` (first to last), as many `undoEdit` calls all
succeed and leave the file holding the last of `cs`, then the one before, ..., at the end
the first; one more `undoEdit` returns the "No edit history found" error. -/
theorem undoEdit_walks_back (path : GoString) (st st1 : State)
    (edits : List (GoString × GoString)) (cs : List GoString)
    (hempty : st.editor.history path = [])
    (hrun : replaceAll path st edits = some (st1, cs)) :
    cs.length = edits.length ∧
    ∃ nd, undoTrace path st1 (cs.length + 1) =
      cs.reverse.map (fun c => (Result.ok { Message := msgUndone path }, some (Node.file c)))
        ++ [(Result.error (errNoHistory path), nd)] := by
  obtain ⟨hlen, hhist, hdisk⟩ := replaceAll_spec path edits st st1 cs hrun
  refine ⟨hlen, undoTrace_spec path cs st1 (by rw [hhist, hempty]; rfl) fun hne => ?_⟩
  apply hdisk
  left
  intro he
  rw [he] at hlen
  exact hne (List.length_eq_zero.mp hlen)

/-- C8 for two replacements on the file "ab" ("a" by "x", then "b" by "y"): they
overwrite "ab" and "xb"; the first undo brings back "xb", the second "ab", the third
fails. -/
theorem undoEdit_walks_back_witness :
    (State.fresh (bytes "f") (bytes "ab")).editor.history (bytes "f") = [] ∧
    ∃ st1, replaceAll (bytes "f") (State.fresh (bytes "f") (bytes "ab"))
        [(bytes "a", bytes "x"), (bytes "b", bytes "y")] = some (st1, [bytes "ab", bytes "xb"]) ∧
      ∃ nd, undoTrace (bytes "f") st1 3 =
        [(Result.ok { Message := msgUndone (bytes "f") }, some (Node.file (bytes "xb"))),
         (Result.ok { Message := msgUndone (bytes "f") }, some (Node.file (bytes "ab"))),
         (Result.error (errNoHistory (bytes "f")), nd)] :=
  ⟨rfl, _, rfl,
    (undoEdit_walks_back (bytes "f") (State.fresh (bytes "f") (bytes "ab")) _
      [(bytes "a", bytes "x"), (bytes "b", bytes "y")] [bytes "ab", bytes "xb"] rfl rfl).2⟩


/-! ## write -/

set_option maxRecDepth 100000 in
/-- C9 at an existing empty file: a `write` over it succeeds and appends nothing to
the history of the path (the claim has the empty content appended), and the `undoEdit`
that follows finds no history. With an older entry below, the undo goes back too far:
on a file "A", after "A" is replaced by "" and "x" is written over the empty file, the
history still is the one entry "A", and `undoEdit` succeeds and leaves the file holding
"A", not the empty content the `write` replaced. -/
theorem write_over_empty_file_pushes_nothing :
    (State.fresh (bytes "f") []).disk.nodes (bytes "f") = some (Node.file []) ∧
    (TextEditor.write (State.fresh (bytes "f") [])
        { Path := bytes "f", FileText := bytes "x" }).1.isOk = true ∧
    (TextEditor.write (State.fresh (bytes "f") [])
        { Path := bytes "f", FileText := bytes "x" }).2.editor.history (bytes "f") = [] ∧
    (TextEditor.write (State.fresh (bytes "f") [])
        { Path := bytes "f", FileText := bytes "x" }).2.editor.history (bytes "f") ≠
      (State.fresh (bytes "f") []).editor.history (bytes "f") ++ [[]] ∧
    (TextEditor.undoEdit
        (TextEditor.write (State.fresh (bytes "f") [])
          { Path := bytes "f", FileText := bytes "x" }).2
        { Path := bytes "f" }).1 = Result.error (errNoHistory (bytes "f")) ∧
    (TextEditor.strReplace (State.fresh (bytes "f") (bytes "A"))
        { Path := bytes "f", OldStr := bytes "A", NewStr := [] }).2.disk.nodes (bytes "f") =
      some (Node.file []) ∧
    (TextEditor.write
        (TextEditor.strReplace (State.fresh (bytes "f") (bytes "A"))
          { Path := bytes "f", OldStr := bytes "A", NewStr := [] }).2
        { Path := bytes "f", FileText := bytes "x" }).1.isOk = true ∧
    (TextEditor.write
        (TextEditor.strReplace (State.fresh (bytes "f") (bytes "A"))
          { Path := bytes "f", OldStr := bytes "A", NewStr := [] }).2
        { Path := bytes "f", FileText := bytes "x" }).2.editor.history (bytes "f") =
      [bytes "A"] ∧
    (TextEditor.undoEdit
        (TextEditor.write
          (TextEditor.strReplace (State.fresh (bytes "f") (bytes "A"))
            { Path := bytes "f", OldStr := bytes "A", NewStr := [] }).2
          { Path := bytes "f", FileText := bytes "x" }).2
        { Path := bytes "f" }).1 = Result.ok { Message := msgUndone (bytes "f") } ∧
    (TextEditor.undoEdit
        (TextEditor.write
          (TextEditor.strReplace (State.fresh (bytes "f") (bytes "A"))
            { Path := bytes "f", OldStr := bytes "A", NewStr := [] }).2
          { Path := bytes "f", FileText := bytes "x" }).2
        { Path := bytes "f" }).2.disk.nodes (bytes "f") = some (Node.file (bytes "A")) := by
  refine ⟨rfl, by decide, by decide, by decide, by decide, by decide, by decide, by decide,
    by decide, by decide⟩

/-- Over an existing regular file with a non-empty content, a successful `write`
appends that content to the history of the path, and the `undoEdit` that follows
succeeds and leaves the file holding it again. -/
theorem write_pushes_old_content (st : State) (request undo : Request)
    (content : GoString)
    (hnode : st.disk.nodes request.Path = some (Node.file content))
    (hne : content ≠ [])
    (hok : (TextEditor.write st request).1.isOk = true)
    (hpath : undo.Path = request.Path) :
    (TextEditor.write st request).2.editor.history request.Path =
      st.editor.history request.Path ++ [content] ∧
    (TextEditor.undoEdit (TextEditor.write st request).2 undo).1 =
      Result.ok { Message := msgUndone request.Path } ∧
    (TextEditor.undoEdit (TextEditor.write st request).2 undo).2.disk.nodes request.Path =
      some (Node.file content) := by
  obtain ⟨hr, hw⟩ := write_ok_inv_file st request content hnode hok
  have hlen : content.length > 0 := List.length_pos.mpr hne
  have hst := write_run_file st request content hnode hr hw
  rw [if_pos hlen] at hst
  have hh : (TextEditor.write st request).2.editor.fileHistory undo.Path =
      some (st.editor.history request.Path ++ [content]) := by
    rw [hst, hpath]; simp [TextEditor.setHistory]
  have hwr := WriteFile_ok_of (TextEditor.write st request).2.disk undo.Path content
    (by rw [hst, hpath]; simp [FileSystem.nodes_store])
    (by rw [hst, hpath]; simpa [FileSystem.nodes_store] using hw)
  have hun := undoEdit_run _ undo _ _ _ hh hwr
  refine ⟨?_, by rw [hun, hpath], ?_⟩
  · rw [hst]; simp [TextEditor.setHistory, TextEditor.history]
  · rw [hun, hpath]; simp [FileSystem.nodes_store]

/-- The push of a non-empty content, for a file holding "Initial content" that is
overwritten with "Updated content" in a new editor. -/
theorem write_pushes_old_content_witness :
    (State.fresh (bytes "f") (bytes "Initial content")).disk.nodes (bytes "f") =
      some (Node.file (bytes "Initial content")) ∧
    bytes "Initial content" ≠ [] ∧
    (TextEditor.write (State.fresh (bytes "f") (bytes "Initial content"))
        { Path := bytes "f", FileText := bytes "Updated content" }).1.isOk = true ∧
    (TextEditor.write (State.fresh (bytes "f") (bytes "Initial content"))
        { Path := bytes "f", FileText := bytes "Updated content" }).2.editor.history
          (bytes "f") = [] ++ [bytes "Initial content"] :=
  ⟨rfl, by decide, by decide,
    (write_pushes_old_content (State.fresh (bytes "f") (bytes "Initial content"))
      { Path := bytes "f", FileText := bytes "Updated content" } { Path := bytes "f" }
      (bytes "Initial content") rfl (by decide) (by decide) rfl).1⟩

/-- C10: where no regular file is at the path, a successful `write` leaves the history
of every path, the written one included, exactly as it was. -/
theorem write_new_file_keeps_history (st : State) (request : Request)
    (hno : ∀ c, st.disk.nodes request.Path ≠ some (Node.file c))
    (hok : (TextEditor.write st request).1.isOk = true) :
    (∀ p, (TextEditor.write st request).2.editor.fileHistory p = st.editor.fileHistory p) ∧
    (∀ p, (TextEditor.write st request).2.editor.history p = st.editor.history p) := by
  rw [write_ok_state_new st request hno hok]
  exact ⟨fun _ => rfl, fun _ => rfl⟩

/-- C10 for a new editor and a path where nothing is: after "Initial content" is
written, the history of the path is empty. -/
theorem write_new_file_keeps_history_witness :
    (∀ c, State.blank.disk.nodes (bytes "f") ≠ some (Node.file c)) ∧
    (TextEditor.write State.blank
        { Path := bytes "f", FileText := bytes "Initial content" }).1.isOk = true ∧
    ((TextEditor.write State.blank
        { Path := bytes "f", FileText := bytes "Initial content" }).2.editor.history
          (bytes "f")).length = 0 :=
  ⟨fun _ h => (nomatch h), by decide,
    congrArg List.length
      ((write_new_file_keeps_history State.blank
        { Path := bytes "f", FileText := bytes "Initial content" }
        (fun _ h => (nomatch h)) (by decide)).2 (bytes "f"))⟩


/-- C11: after a successful `write` the file at the path holds exactly `file_text`,
whatever was there before; the response carries `file_text` and a message that is not
empty. -/
theorem write_replaces_content (st : State) (request : Request)
    (hok : (TextEditor.write st request).1.isOk = true) :
    (TextEditor.write st request).2.disk.nodes request.Path =
      some (Node.file request.FileText) ∧
    ∃ resp, (TextEditor.write st request).1 = Result.ok resp ∧
      resp.FileText = request.FileText ∧ resp.Message ≠ [] := by
  obtain ⟨hres, hdisk, _⟩ := write_ok_result st request hok
  refine ⟨by rw [hdisk]; simp [FileSystem.nodes_store], _, hres, rfl, ?_⟩
  show msgWritten request.Path ≠ []
  have hb : bytes "File '" = [70, 105, 108, 101, 32, 39] := by decide
  unfold msgWritten
  rw [hb]
  simp

/-- C11 for "New content" written over a longer file: the file holds "New content" and
nothing else. -/
theorem write_replaces_content_witness :
    (TextEditor.write (State.fresh (bytes "f") (bytes "A longer content of before"))
        { Path := bytes "f", FileText := bytes "New content" }).1.isOk = true ∧
    (TextEditor.write (State.fresh (bytes "f") (bytes "A longer content of before"))
        { Path := bytes "f", FileText := bytes "New content" }).2.disk.nodes (bytes "f") =
      some (Node.file (bytes "New content")) :=
  ⟨by decide,
    (write_replaces_content (State.fresh (bytes "f") (bytes "A longer content of before"))
      { Path := bytes "f", FileText := bytes "New content" } (by decide)).1⟩


/-- C12 at an empty text: in a new editor, with nothing at the path, the two writes of
"" and "b" both succeed and the history of the path has no entry (not 2 - 1 = 1): the
second write finds an empty file and pushes nothing. -/
theorem write_after_empty_text_pushes_nothing :
    State.blank.disk.nodes (bytes "f") = none ∧
    State.blank.editor.history (bytes "f") = [] ∧
    (writeAll (bytes "f") State.blank [[], bytes "b"]).isSome = true ∧
    (writeAll (bytes "f") State.blank [[], bytes "b"]).map
        (fun s => (s.editor.history (bytes "f")).length) = some 0 ∧
    (writeAll (bytes "f") State.blank [[], bytes "b"]).map
        (fun s => (s.editor.history (bytes "f")).length) ≠ some ([[], bytes "b"].length - 1) := by
  refine ⟨rfl, rfl, by decide, by decide, by decide⟩

/-- Starting with an empty history for the path and nothing at the path, after N >= 1
successful `write` calls in a row, with every text but possibly the last one non-empty,
the history of the path is the texts but the last, so N - 1 entries. -/
theorem write_sequence_history_length (path : GoString) (st st1 : State)
    (texts : List GoString)
    (hhist : st.editor.history path = [])
    (hnone : st.disk.nodes path = none)
    (hpos : texts ≠ [])
    (hne : ∀ x ∈ texts.dropLast, x ≠ [])
    (hrun : writeAll path st texts = some st1) :
    st1.editor.history path = texts.dropLast ∧
    (st1.editor.history path).length = texts.length - 1 := by
  cases texts with
  | nil => exact absurd rfl hpos
  | cons x rest =>
    obtain ⟨hok, hrest⟩ := writeAll_cons path st st1 x rest hrun
    have hno : ∀ c, st.disk.nodes ({ Path := path, FileText := x } : Request).Path ≠
        some (Node.file c) := by
      intro c h
      rw [show ({ Path := path, FileText := x } : Request).Path = path from rfl, hnone] at h
      cases h
    have hst := write_ok_state_new st { Path := path, FileText := x } hno hok
    rw [hst] at hrest
    have h := writeAll_spec path rest _ st1 x (by simp [FileSystem.nodes_store]) hne hrest
    have hh : st1.editor.history path = (x :: rest).dropLast := by
      rw [h]; simp [hhist]
    exact ⟨hh, by rw [hh]; simp⟩

/-- The count of entries for "Initial content" and then "Updated content" written to
a new path in a new editor: one history entry. -/
theorem write_sequence_history_length_witness :
    State.blank.editor.history (bytes "f") = [] ∧
    State.blank.disk.nodes (bytes "f") = none ∧
    ∃ st1, writeAll (bytes "f") State.blank
        [bytes "Initial content", bytes "Updated content"] = some st1 ∧
      (st1.editor.history (bytes "f")).length = 2 - 1 :=
  ⟨rfl, rfl, _, rfl,
    (write_sequence_history_length (bytes "f") State.blank _
      [bytes "Initial content", bytes "Updated content"] rfl rfl (by simp) (by decide) rfl).2⟩


/-! ## view -/

/-- C13: after a successful `write` of a text within the limits of `view` (at most
`MAX_FILE_SIZE` bytes and `MAX_CHAR_COUNT` runes) to a path that can be read, `view` on
the path succeeds and returns the opening fence, the extension of the path without its
dot, a newline, exactly the text, a newline and the closing fence. -/
theorem view_after_write (st : State) (request viewReq : Request)
    (hok : (TextEditor.write st request).1.isOk = true)
    (hr : st.disk.readFault request.Path = none)
    (hsize : request.FileText.length ≤ MAX_FILE_SIZE)
    (hcount : utf8.RuneCountInString request.FileText ≤ MAX_CHAR_COUNT)
    (hpath : viewReq.Path = request.Path) :
    (TextEditor.view (TextEditor.write st request).2 viewReq).1 =
      Result.ok { FileText := bytes "```" ++
        strings.TrimPrefix (filepath.Ext request.Path) (bytes ".") ++ bytes "\n" ++
        request.FileText ++ bytes "\n```" } := by
  obtain ⟨_, hdisk, _⟩ := write_ok_result st request hok
  rw [view_run (TextEditor.write st request).2 viewReq request.FileText
    (by rw [hdisk, hpath]; simp [FileSystem.nodes_store]) hsize
    (by rw [hdisk, hpath]; simpa [FileSystem.nodes_store] using hr) hcount, hpath]

/-- C13 for "Hello World" written to "test.txt": the view is the text in a fence with
the tag "txt". -/
theorem view_after_write_witness :
    (TextEditor.write State.blank
        { Path := bytes "test.txt", FileText := bytes "Hello World" }).1.isOk = true ∧
    (TextEditor.view
        (TextEditor.write State.blank
          { Path := bytes "test.txt", FileText := bytes "Hello World" }).2
        { Path := bytes "test.txt" }).1 =
      Result.ok { FileText := bytes "```txt\nHello World\n```" } :=
  ⟨by decide,
    (view_after_write State.blank { Path := bytes "test.txt", FileText := bytes "Hello World" }
      { Path := bytes "test.txt" } (by decide) rfl (by decide) (by decide) rfl).trans
      (by decide)⟩

/-- C14: whatever file and history were at the path before, after a successful `write`
of a text `X` within the limits of `view` to a path that can be read, with exactly one
instance of `old_str` in `X`: `strReplace` succeeds, the `undoEdit` after it succeeds,
and the `view` after that returns `X`, fenced and tagged. -/
theorem view_after_write_replace_undo (st : State) (w r u v : Request)
    (hok : (TextEditor.write st w).1.isOk = true)
    (hread : st.disk.readFault w.Path = none)
    (hc : strings.Count w.FileText r.OldStr = 1)
    (hsize : w.FileText.length ≤ MAX_FILE_SIZE)
    (hcount : utf8.RuneCountInString w.FileText ≤ MAX_CHAR_COUNT)
    (hr : r.Path = w.Path) (hu : u.Path = w.Path) (hv : v.Path = w.Path) :
    (TextEditor.strReplace (TextEditor.write st w).2 r).1.isOk = true ∧
    (TextEditor.undoEdit (TextEditor.strReplace (TextEditor.write st w).2 r).2 u).1.isOk
      = true ∧
    (TextEditor.view
        (TextEditor.undoEdit (TextEditor.strReplace (TextEditor.write st w).2 r).2 u).2 v).1 =
      Result.ok { FileText := bytes "```" ++
        strings.TrimPrefix (filepath.Ext w.Path) (bytes ".") ++ bytes "\n" ++
        w.FileText ++ bytes "\n```" } := by
  obtain ⟨_, hdisk, hw⟩ := write_ok_result st w hok
  have hnode : (TextEditor.write st w).2.disk.nodes r.Path = some (Node.file w.FileText) := by
    rw [hdisk, hr]; simp [FileSystem.nodes_store]
  have hrf : (TextEditor.write st w).2.disk.readFault r.Path = none := by
    rw [hdisk, hr]; simpa [FileSystem.nodes_store] using hread
  have hwf : (TextEditor.write st w).2.disk.writeFault r.Path = none := by
    rw [hdisk, hr]; simpa [FileSystem.nodes_store] using hw
  obtain ⟨j, hj⟩ := strings.firstIndex_of_count_pos w.FileText r.OldStr (by omega)
  obtain ⟨resp, hrun⟩ := strReplace_run _ r w.FileText j hnode hrf hwf hc hj
  have hok2 : (TextEditor.strReplace (TextEditor.write st w).2 r).1.isOk = true := by
    rw [hrun]; rfl
  obtain ⟨hundo, data, hd3⟩ := replace_then_undo _ r u w.FileText hnode hok2 (hu.trans hr.symm)
  refine ⟨hok2, by rw [hundo]; rfl, ?_⟩
  rw [view_run _ v w.FileText (by rw [hd3, hv, hr, hdisk]; simp [FileSystem.nodes_store]) hsize
    (by rw [hd3, hv, hr, hdisk]; simpa [FileSystem.nodes_store] using hread) hcount, hv]

/-- C14 for "ab" written to "f.go" over a file holding "old", then "a" replaced by "x",
the replacement undone and the file viewed. -/
theorem view_after_write_replace_undo_witness :
    (TextEditor.write (State.fresh (bytes "f.go") (bytes "old"))
        { Path := bytes "f.go", FileText := bytes "ab" }).1.isOk = true ∧
    strings.Count (bytes "ab") (bytes "a") = 1 ∧
    (TextEditor.view
        (TextEditor.undoEdit
          (TextEditor.strReplace
            (TextEditor.write (State.fresh (bytes "f.go") (bytes "old"))
              { Path := bytes "f.go", FileText := bytes "ab" }).2
            { Path := bytes "f.go", OldStr := bytes "a", NewStr := bytes "x" }).2
          { Path := bytes "f.go" }).2
        { Path := bytes "f.go" }).1 =
      Result.ok { FileText := bytes "```go\nab\n```" } :=
  ⟨by decide, by decide,
    ((view_after_write_replace_undo (State.fresh (bytes "f.go") (bytes "old"))
      { Path := bytes "f.go", FileText := bytes "ab" }
      { Path := bytes "f.go", OldStr := bytes "a", NewStr := bytes "x" }
      { Path := bytes "f.go" } { Path := bytes "f.go" }
      (by decide) rfl (by decide) (by decide) (by decide) rfl rfl rfl).2.2).trans
      (by decide)⟩


/-- C15: `view` on a regular file that can be read rejects it exactly when it has more
than 400*1024 = 409600 bytes (the "too large" error with the size in KB) or, with at
most that many bytes, more than 400000 runes (the "too many characters" error with the
count, a different text); a file at or below both limits is accepted and returned in a
fence. -/
theorem view_size_guard (st : State) (request : Request) (content : GoString)
    (hn : st.disk.nodes request.Path = some (Node.file content))
    (hr : st.disk.readFault request.Path = none) :
    MAX_FILE_SIZE = 409600 ∧ MAX_CHAR_COUNT = 400000 ∧
    (409600 < content.length →
      (TextEditor.view st request).1 =
        Result.error (errTooLarge request.Path content.length)) ∧
    (content.length ≤ 409600 → 400000 < utf8.RuneCountInString content →
      (TextEditor.view st request).1 =
        Result.error (errTooManyChars request.Path (utf8.RuneCountInString content))) ∧
    (content.length ≤ 409600 → utf8.RuneCountInString content ≤ 400000 →
      (TextEditor.view st request).1 =
        Result.ok { FileText := bytes "```" ++
          strings.TrimPrefix (filepath.Ext request.Path) (bytes ".") ++ bytes "\n" ++
          content ++ bytes "\n```" }) ∧
    ((TextEditor.view st request).1.isOk = false ↔
      409600 < content.length ∨ 400000 < utf8.RuneCountInString content) ∧
    (∀ size count, errTooLarge request.Path size ≠ errTooManyChars request.Path count) := by
  have hA : MAX_FILE_SIZE = 409600 := rfl
  have hB : MAX_CHAR_COUNT = 400000 := rfl
  refine ⟨hA, hB, fun h => ?_, fun h1 h2 => ?_, fun h1 h2 => ?_, ?_,
    errTooLarge_ne_errTooManyChars request.Path⟩
  · rw [view_too_large st request content hn (by rw [hA]; exact h)]
  · rw [view_too_many st request content hn (by rw [hA]; exact h1) hr (by rw [hB]; exact h2)]
  · rw [view_run st request content hn (by rw [hA]; exact h1) hr (by rw [hB]; exact h2)]
  · by_cases h1 : 409600 < content.length
    · rw [view_too_large st request content hn (by rw [hA]; exact h1)]
      simp [Result.isOk, h1]
    · by_cases h2 : 400000 < utf8.RuneCountInString content
      · rw [view_too_many st request content hn (by rw [hA]; omega) hr (by rw [hB]; exact h2)]
        simp [Result.isOk, h2]
      · rw [view_run st request content hn (by rw [hA]; omega) hr (by rw [hB]; omega)]
        simp [Result.isOk, h1, h2]

/-- C15 for a file of 500*1024 bytes "a": it is rejected as too large. -/
theorem view_size_guard_witness :
    (State.fresh (bytes "f") (List.replicate (500 * 1024) 97)).disk.nodes (bytes "f") =
      some (Node.file (List.replicate (500 * 1024) 97)) ∧
    (TextEditor.view (State.fresh (bytes "f") (List.replicate (500 * 1024) 97))
        { Path := bytes "f" }).1 =
      Result.error (errTooLarge (bytes "f") (List.replicate (500 * 1024) (97 : UInt8)).length) :=
  ⟨rfl,
    (view_size_guard (State.fresh (bytes "f") (List.replicate (500 * 1024) 97))
      { Path := bytes "f" } (List.replicate (500 * 1024) 97) rfl rfl).2.2.1
      (by rw [List.length_replicate]; decide)⟩

/-- C16, as stated, fails: a file of 399*1024 = 408576 bytes "a" has 408576 runes,
more than 400000, and `view` rejects it with the "too many characters" error. -/
theorem view_399KiB_ascii_counterexample :
    (List.replicate 408576 (97 : UInt8)).length = 399 * 1024 ∧
    (State.fresh (bytes "f") (List.replicate 408576 97)).disk.nodes (bytes "f") =
      some (Node.file (List.replicate 408576 97)) ∧
    (TextEditor.view (State.fresh (bytes "f") (List.replicate 408576 97))
        { Path := bytes "f" }).1 = Result.error (errTooManyChars (bytes "f") 408576) ∧
    (TextEditor.view (State.fresh (bytes "f") (List.replicate 408576 97))
        { Path := bytes "f" }).1.isOk = false := by
  have hn : (State.fresh (bytes "f") (List.replicate 408576 97)).disk.nodes
      ({ Path := bytes "f" } : Request).Path = some (Node.file (List.replicate 408576 97)) :=
    rfl
  have hc : utf8.RuneCountInString (List.replicate 408576 (97 : UInt8)) = 408576 :=
    utf8.RuneCountInString_replicate 97 (by decide) 408576
  have hv := view_too_many (State.fresh (bytes "f") (List.replicate 408576 97))
    { Path := bytes "f" } (List.replicate 408576 97) hn
    (by rw [List.length_replicate]; decide) rfl (by rw [hc]; decide)
  rw [hc] at hv
  refine ⟨by rw [List.length_replicate], hn, by rw [hv], by rw [hv]; rfl⟩

/-- C16, amended: `view` on a regular file of 399*1024 bytes that can be read and
holds at most 400000 runes succeeds and returns the content in a fence. -/
theorem view_399KiB_within_char_limit (st : State) (request : Request)
    (content : GoString)
    (hn : st.disk.nodes request.Path = some (Node.file content))
    (hr : st.disk.readFault request.Path = none)
    (hlen : content.length = 399 * 1024)
    (hcount : utf8.RuneCountInString content ≤ 400000) :
    (TextEditor.view st request).1 =
      Result.ok { FileText := bytes "```" ++
        strings.TrimPrefix (filepath.Ext request.Path) (bytes ".") ++ bytes "\n" ++
        content ++ bytes "\n```" } := by
  rw [view_run st request content hn (by rw [hlen]; decide) hr hcount]

/-- C16 (amended) for a file of 204288 letters "é": 408576 bytes, 204288 runes. -/
theorem view_399KiB_within_char_limit_witness :
    (eAcutes 204288).length = 399 * 1024 ∧
    utf8.RuneCountInString (eAcutes 204288) ≤ 400000 ∧
    (TextEditor.view (State.fresh (bytes "f") (eAcutes 204288)) { Path := bytes "f" }).1 =
      Result.ok { FileText := (bytes "```" ++
        strings.TrimPrefix (filepath.Ext (bytes "f")) (bytes ".") ++ bytes "\n" ++
        (eAcutes 204288) ++ bytes "\n```") } :=
  ⟨(length_eAcutes 204288).trans (by decide),
    (RuneCountInString_eAcutes 204288).le.trans (by decide),
    view_399KiB_within_char_limit (State.fresh (bytes "f") (eAcutes 204288))
      { Path := bytes "f" } (eAcutes 204288) rfl rfl
      ((length_eAcutes 204288).trans (by decide))
      ((RuneCountInString_eAcutes 204288).le.trans (by decide))⟩


/-- C17, as stated, fails twice. The tag is not converted to lower case: the file
"NOTES.TXT" is shown with the tag "TXT", not "txt". And only the last element of the path
is looked at: for "a.b/c" the text after the last dot is "b/c", but the fence has no
tag. -/
theorem view_tag_counterexample :
    (TextEditor.view (State.fresh (bytes "NOTES.TXT") (bytes "x"))
        { Path := bytes "NOTES.TXT" }).1 =
      Result.ok { FileText := bytes "```TXT\nx\n```" } ∧
    (TextEditor.view (State.fresh (bytes "NOTES.TXT") (bytes "x"))
        { Path := bytes "NOTES.TXT" }).1 ≠
      Result.ok { FileText := bytes "```txt\nx\n```" } ∧
    bytes "a.b/c" = bytes "a" ++ bytes "." ++ bytes "b/c" ∧
    (TextEditor.view (State.fresh (bytes "a.b/c") (bytes "x"))
        { Path := bytes "a.b/c" }).1 =
      Result.ok { FileText := bytes "```\nx\n```" } ∧
    (TextEditor.view (State.fresh (bytes "a.b/c") (bytes "x"))
        { Path := bytes "a.b/c" }).1 ≠
      Result.ok { FileText := bytes "```b/c\nx\n```" } := by
  refine ⟨by decide, by decide, by decide, by decide, by decide⟩

/-- C17, amended: when `view` accepts a file, the tag on the fence is the text after
the last dot of the path, as it is written, provided no "/" comes after that dot; and it
is empty when the last element of the path (what follows the last "/") has no dot. -/
theorem view_language_tag (st : State) (request : Request) (content : GoString)
    (hn : st.disk.nodes request.Path = some (Node.file content))
    (hr : st.disk.readFault request.Path = none)
    (hsize : content.length ≤ MAX_FILE_SIZE)
    (hcount : utf8.RuneCountInString content ≤ MAX_CHAR_COUNT) :
    (∀ d suf : GoString, request.Path = d ++ 0x2E :: suf →
      (0x2E : UInt8) ∉ suf → (0x2F : UInt8) ∉ suf →
      (TextEditor.view st request).1 =
        Result.ok { FileText := bytes "```" ++ suf ++ bytes "\n" ++ content ++ bytes "\n```" }) ∧
    (∀ d base : GoString, request.Path = d ++ base →
      (d = [] ∨ ∃ t, d = t ++ [0x2F]) → (0x2E : UInt8) ∉ base →
      (TextEditor.view st request).1 =
        Result.ok { FileText := bytes "```" ++ [] ++ bytes "\n" ++ content ++ bytes "\n```" }) := by
  rw [view_run st request content hn hsize hr hcount]
  refine ⟨fun d suf hp h1 h2 => ?_, fun d base hp hd h1 => ?_⟩
  · rw [hp, filepath.Ext_dot d suf h1 h2, TrimPrefix_dot]
  · rw [hp, filepath.Ext_no_dot d base h1 hd, TrimPrefix_nil]

/-- C17 (amended) for the file "dir/NOTES.TXT": the tag is "TXT". -/
theorem view_language_tag_witness :
    (State.fresh (bytes "dir/NOTES.TXT") (bytes "x")).disk.nodes (bytes "dir/NOTES.TXT") =
      some (Node.file (bytes "x")) ∧
    bytes "dir/NOTES.TXT" = bytes "dir/NOTES" ++ 0x2E :: bytes "TXT" ∧
    (TextEditor.view (State.fresh (bytes "dir/NOTES.TXT") (bytes "x"))
        { Path := bytes "dir/NOTES.TXT" }).1 =
      Result.ok { FileText := (bytes "```" ++ bytes "TXT" ++ bytes "\n" ++ bytes "x" ++
        bytes "\n```") } :=
  ⟨rfl, by decide,
    (view_language_tag (State.fresh (bytes "dir/NOTES.TXT") (bytes "x"))
      { Path := bytes "dir/NOTES.TXT" } (bytes "x") rfl rfl (by decide) (by decide)).1
      (bytes "dir/NOTES") (bytes "TXT") (by decide) (by decide) (by decide)⟩

/-- C18: `view` on a path at which nothing is returns the "does not exist or is not a
file" error, `view` on a directory the "is not a file" error; in both cases there is no
response and the state, every file and every history stack, is as before. -/
theorem view_missing_or_directory (st : State) (request : Request) :
    (st.disk.nodes request.Path = none →
      (TextEditor.view st request).1 =
        Result.error (bytes "The request.Path '" ++ request.Path ++
          bytes "' does not exist or is not a file.") ∧
      (TextEditor.view st request).2 = st) ∧
    (st.disk.nodes request.Path = some Node.dir →
      (TextEditor.view st request).1 =
        Result.error (bytes "The request.Path '" ++ request.Path ++ bytes "' is not a file.") ∧
      (TextEditor.view st request).2 = st) := by
  refine ⟨fun h => ?_, fun h => ?_⟩
  · rw [view_missing st request h]; exact ⟨rfl, rfl⟩
  · rw [view_dir st request h]; exact ⟨rfl, rfl⟩

/-- C18 for "nonexistent.txt" in a new editor with an empty file system. -/
theorem view_missing_or_directory_witness :
    State.blank.disk.nodes (bytes "nonexistent.txt") = none ∧
    (TextEditor.view State.blank { Path := bytes "nonexistent.txt" }).1 =
      Result.error (bytes "The request.Path '" ++ bytes "nonexistent.txt" ++
        bytes "' does not exist or is not a file.") ∧
    (TextEditor.view State.blank { Path := bytes "nonexistent.txt" }).2 = State.blank :=
  ⟨rfl,
    (view_missing_or_directory State.blank { Path := bytes "nonexistent.txt" }).1 rfl⟩

/-! ## The dispatcher -/

/-- C19: `editText` returns, with the same state after it, what `view`, `write`,
`strReplace` and `undoEdit` return on the same request for the commands "view", "write",
"str_replace" and "undo_edit"; for every other command it returns the error
"invalid command: " followed by the command and leaves the state as it was. -/
theorem editText_dispatch (st : State) (request : Request) :
    (request.Command = bytes "view" →
      TextEditor.editText st request = TextEditor.view st request) ∧
    (request.Command = bytes "write" →
      TextEditor.editText st request = TextEditor.write st request) ∧
    (request.Command = bytes "str_replace" →
      TextEditor.editText st request = TextEditor.strReplace st request) ∧
    (request.Command = bytes "undo_edit" →
      TextEditor.editText st request = TextEditor.undoEdit st request) ∧
    (request.Command ≠ bytes "view" → request.Command ≠ bytes "write" →
      request.Command ≠ bytes "str_replace" → request.Command ≠ bytes "undo_edit" →
      TextEditor.editText st request =
        (Result.error (bytes "invalid command: " ++ request.Command), st)) := by
  have h1 : bytes "write" ≠ bytes "view" := by decide
  have h2 : bytes "str_replace" ≠ bytes "view" := by decide
  have h3 : bytes "str_replace" ≠ bytes "write" := by decide
  have h4 : bytes "undo_edit" ≠ bytes "view" := by decide
  have h5 : bytes "undo_edit" ≠ bytes "write" := by decide
  have h6 : bytes "undo_edit" ≠ bytes "str_replace" := by decide
  unfold TextEditor.editText
  refine ⟨fun h => ?_, fun h => ?_, fun h => ?_, fun h => ?_, fun a b c d => ?_⟩
  · rw [if_pos h]
  · rw [if_neg (by rw [h]; exact h1), if_pos h]
  · rw [if_neg (by rw [h]; exact h2), if_neg (by rw [h]; exact h3), if_pos h]
  · rw [if_neg (by rw [h]; exact h4), if_neg (by rw [h]; exact h5),
      if_neg (by rw [h]; exact h6), if_pos h]
  · rw [if_neg a, if_neg b, if_neg c, if_neg d]

/-- C19 for the command "invalid". -/
theorem editText_dispatch_witness :
    bytes "invalid" ≠ bytes "view" ∧ bytes "invalid" ≠ bytes "write" ∧
    bytes "invalid" ≠ bytes "str_replace" ∧ bytes "invalid" ≠ bytes "undo_edit" ∧
    TextEditor.editText State.blank { Command := bytes "invalid" } =
      (Result.error (bytes "invalid command: " ++ bytes "invalid"), State.blank) :=
  ⟨by decide, by decide, by decide, by decide,
    (editText_dispatch State.blank { Command := bytes "invalid" }).2.2.2.2
      (by decide) (by decide) (by decide) (by decide)⟩

/-! ## A write that fails -/

/-- C20 at a file "ab" that can be read but not written, with "a" to be replaced by
"x" in a new editor: `strReplace` returns the write error and the file still holds "ab",
but the history of the path, empty before the call, now holds the entry "ab": the push
is not taken back. -/
theorem strReplace_write_failure_keeps_push :
    strings.Count (bytes "ab") (bytes "a") = 1 ∧
    (TextEditor.strReplace
        { editor := newTextEditor, disk := FileSystem.readOnly (bytes "f") (bytes "ab") }
        { Path := bytes "f", OldStr := bytes "a", NewStr := bytes "x" }).1 =
      Result.error (bytes "Failed to write file: open f: permission denied") ∧
    (TextEditor.strReplace
        { editor := newTextEditor, disk := FileSystem.readOnly (bytes "f") (bytes "ab") }
        { Path := bytes "f", OldStr := bytes "a", NewStr := bytes "x" }).2.disk.nodes
          (bytes "f") = some (Node.file (bytes "ab")) ∧
    newTextEditor.history (bytes "f") = [] ∧
    (TextEditor.strReplace
        { editor := newTextEditor, disk := FileSystem.readOnly (bytes "f") (bytes "ab") }
        { Path := bytes "f", OldStr := bytes "a", NewStr := bytes "x" }).2.editor.history
          (bytes "f") = [bytes "ab"] := by
  refine ⟨by decide, by decide, by decide, rfl, by decide⟩


/-! ## The snippet -/

/-- C24: for a successful `strReplace` whose match starts at offset `j`, with `L` the
number of newlines before the match, `k` the number of newlines in `new_str` and `lines`
the content after the replacement split at newlines, the message of the response is the
first sentence, the fence with the tag of the path around the lines from `max(0, L-4)` to
`min(L+4+k, len(lines)-1)` joined by newlines, and the last sentence; the `file_text` of
the response is empty. -/
theorem strReplace_message (st : State) (request : Request) (content : GoString)
    (j : Nat) (resp : Response)
    (hnode : st.disk.nodes request.Path = some (Node.file content))
    (hidx : strings.Index content request.OldStr = (j : Int))
    (hres : (TextEditor.strReplace st request).1 = Result.ok resp) :
    resp.Message =
      specMessage request.Path ((content.take j).count 10) (request.NewStr.count 10)
        (strings.Split
          (content.take j ++ request.NewStr ++ content.drop (j + request.OldStr.length))
          (bytes "\n")) ∧
    resp.FileText = [] := by
  obtain ⟨hresp, _, _⟩ := strReplace_ok_response st request content j resp hnode hidx hres
  rw [hresp]
  exact ⟨rfl, rfl⟩

set_option maxRecDepth 100000 in
/-- C24 for the file "1\n2\n3\n4\n5\n6\nOld\n8" with "Old" (after six newlines)
replaced by "New": the snippet is the lines from the third on. -/
theorem strReplace_message_witness :
    strings.Index (bytes "1\n2\n3\n4\n5\n6\nOld\n8") (bytes "Old") = ((12 : Nat) : Int) ∧
    ((bytes "1\n2\n3\n4\n5\n6\nOld\n8").take 12).count 10 = 6 ∧
    (TextEditor.strReplace (State.fresh (bytes "f.go") (bytes "1\n2\n3\n4\n5\n6\nOld\n8"))
        { Path := bytes "f.go", OldStr := bytes "Old", NewStr := bytes "New" }).1 =
      Result.ok { Message := (bytes "The file f.go has been edited, and the section now reads:\n```go\n3\n4\n5\n6\nNew\n8\n```\nReview the changes above for errors. Undo and edit the file again if necessary!") } ∧
    bytes "The file f.go has been edited, and the section now reads:\n```go\n3\n4\n5\n6\nNew\n8\n```\nReview the changes above for errors. Undo and edit the file again if necessary!" =
      specMessage (bytes "f.go") (((bytes "1\n2\n3\n4\n5\n6\nOld\n8").take 12).count 10)
        ((bytes "New").count 10)
        (strings.Split
          ((bytes "1\n2\n3\n4\n5\n6\nOld\n8").take 12 ++ bytes "New" ++
            (bytes "1\n2\n3\n4\n5\n6\nOld\n8").drop (12 + (bytes "Old").length))
          (bytes "\n")) :=
  ⟨by decide, by decide, by decide,
    (strReplace_message (State.fresh (bytes "f.go") (bytes "1\n2\n3\n4\n5\n6\nOld\n8"))
      { Path := bytes "f.go", OldStr := bytes "Old", NewStr := bytes "New" }
      (bytes "1\n2\n3\n4\n5\n6\nOld\n8") 12
      { Message := (bytes "The file f.go has been edited, and the section now reads:\n```go\n3\n4\n5\n6\nNew\n8\n```\nReview the changes above for errors. Undo and edit the file again if necessary!") }
      rfl (by decide) (by decide)).1⟩

/-- C25: for a successful `strReplace` whose match starts at offset `j`, after `L`
newlines, with `k` newlines in `new_str`: the content after the replacement is the part
before the match, `new_str` and the part behind the match, so `new_str` begins on line `L`
and ends on line `L + k` of it; the snippet of the message is the lines from
`max(0, L-4)` to `min(L+4+k, len(lines)-1)`, and both line `L` and line `L + k` are
inside that range, which ends before `len(lines)`. -/
theorem strReplace_snippet_shows_new_lines (st : State) (request : Request)
    (content : GoString) (j : Nat) (resp : Response)
    (hnode : st.disk.nodes request.Path = some (Node.file content))
    (hidx : strings.Index content request.OldStr = (j : Int))
    (hres : (TextEditor.strReplace st request).1 = Result.ok resp) :
    (TextEditor.strReplace st request).2.disk.nodes request.Path =
      some (Node.file
        (content.take j ++ request.NewStr ++ content.drop (j + request.OldStr.length))) ∧
    (content.take j ++ request.NewStr).count 10 =
      (content.take j).count 10 + request.NewStr.count 10 ∧
    resp.Message =
      specMessage request.Path ((content.take j).count 10) (request.NewStr.count 10)
        (strings.Split
          (content.take j ++ request.NewStr ++ content.drop (j + request.OldStr.length))
          (bytes "\n")) ∧
    (max 0 (((content.take j).count 10 : Int) - 4)).toNat ≤ (content.take j).count 10 ∧
    (content.take j).count 10 + request.NewStr.count 10 ≤
      (min (((content.take j).count 10 : Int) + 4 + (request.NewStr.count 10 : Int))
        (((strings.Split
          (content.take j ++ request.NewStr ++ content.drop (j + request.OldStr.length))
          (bytes "\n")).length : Int) - 1)).toNat ∧
    (min (((content.take j).count 10 : Int) + 4 + (request.NewStr.count 10 : Int))
        (((strings.Split
          (content.take j ++ request.NewStr ++ content.drop (j + request.OldStr.length))
          (bytes "\n")).length : Int) - 1)).toNat <
      (strings.Split
          (content.take j ++ request.NewStr ++ content.drop (j + request.OldStr.length))
          (bytes "\n")).length := by
  obtain ⟨hresp, hdisk, hlen⟩ :=
    strReplace_ok_response st request content j resp hnode hidx hres
  refine ⟨hdisk, List.count_append _ _ _, by rw [hresp], ?_, ?_, ?_⟩
  · simp only [max_def]; split_ifs <;> omega
  · rw [hlen]; simp only [min_def]; split_ifs <;> omega
  · simp only [min_def]; split_ifs <;> omega

set_option maxRecDepth 100000 in
/-- C25 for the file "a\nOld\nz" with "Old" replaced by the three lines "x\ny\nw":
they are the lines 1 to 3 of the new content, inside the snippet range 0 to 4. -/
theorem strReplace_snippet_shows_new_lines_witness :
    strings.Index (bytes "a\nOld\nz") (bytes "Old") = ((2 : Nat) : Int) ∧
    (TextEditor.strReplace (State.fresh (bytes "f") (bytes "a\nOld\nz"))
        { Path := bytes "f", OldStr := bytes "Old", NewStr := bytes "x\ny\nw" }).1 =
      Result.ok { Message := (bytes "The file f has been edited, and the section now reads:\n```\na\nx\ny\nw\nz\n```\nReview the changes above for errors. Undo and edit the file again if necessary!") } ∧
    ((bytes "a\nOld\nz").take 2).count 10 + (bytes "x\ny\nw").count 10 ≤
      (min ((((bytes "a\nOld\nz").take 2).count 10 : Int) + 4 +
          ((bytes "x\ny\nw").count 10 : Int))
        (((strings.Split
          ((bytes "a\nOld\nz").take 2 ++ bytes "x\ny\nw" ++
            (bytes "a\nOld\nz").drop (2 + (bytes "Old").length))
          (bytes "\n")).length : Int) - 1)).toNat :=
  ⟨by decide, by decide,
    (strReplace_snippet_shows_new_lines (State.fresh (bytes "f") (bytes "a\nOld\nz"))
      { Path := bytes "f", OldStr := bytes "Old", NewStr := bytes "x\ny\nw" }
      (bytes "a\nOld\nz") 2
      { Message := (bytes "The file f has been edited, and the section now reads:\n```\na\nx\ny\nw\nz\n```\nReview the changes above for errors. Undo and edit the file again if necessary!") }
      rfl (by decide) (by decide)).2.2.2.2.1⟩


/-- C26: with exactly one instance of `old_str` in the content, `strings.Index` finds
it, and the bounds `strReplace` computes satisfy `0 <= startLine <= endLine < len(lines)`
for the lines of the content after the replacement, so the slice
`lines[startLine : endLine+1]` is in range and not empty; on a file with that content
that can be read, `strReplace` neither panics nor returns the "Unexpected error: oldStr
not found" error. -/
theorem snippet_bounds_safe (content old new : GoString)
    (hc : strings.Count content old = 1) :
    strings.Index content old ≠ -1 ∧
    0 ≤ (snippetRange content old new (strings.Replace content old new 1)).1 ∧
    (snippetRange content old new (strings.Replace content old new 1)).1 ≤
      (snippetRange content old new (strings.Replace content old new 1)).2 ∧
    (snippetRange content old new (strings.Replace content old new 1)).2 <
      ((strings.Split (strings.Replace content old new 1) (bytes "\n")).length : Int) ∧
    ((strings.Split (strings.Replace content old new 1) (bytes "\n")).take
        ((snippetRange content old new (strings.Replace content old new 1)).2 + 1).toNat).drop
      (snippetRange content old new (strings.Replace content old new 1)).1.toNat ≠ [] ∧
    (∀ (st : State) (request : Request),
      request.OldStr = old → request.NewStr = new →
      st.disk.nodes request.Path = some (Node.file content) →
      st.disk.readFault request.Path = none →
      (TextEditor.strReplace st request).1 ≠ Result.panic ∧
      (TextEditor.strReplace st request).1 ≠
        Result.error (bytes "Unexpected error: oldStr not found")) := by
  obtain ⟨j, hj⟩ := strings.firstIndex_of_count_pos content old (by omega)
  obtain ⟨hrep, hlen, hrange⟩ := snippetRange_spec content old new j hj (by omega)
  have hidx := Index_of_firstIndex content old j hj
  have h1 : 0 ≤ (snippetRange content old new (strings.Replace content old new 1)).1 := by
    rw [hrange]; exact le_max_left _ _
  have h2 : (snippetRange content old new (strings.Replace content old new 1)).1 ≤
      (snippetRange content old new (strings.Replace content old new 1)).2 := by
    rw [hrange, hlen]; simp only [max_def, min_def]; split_ifs <;> omega
  have h3 : (snippetRange content old new (strings.Replace content old new 1)).2 <
      ((strings.Split (strings.Replace content old new 1) (bytes "\n")).length : Int) := by
    rw [hrange, hlen]; simp only [min_def]; split_ifs <;> omega
  refine ⟨by rw [hidx]; omega, h1, h2, h3, ?_, ?_⟩
  · intro h
    have hl := congrArg List.length h
    simp only [List.length_drop, List.length_take, List.length_nil] at hl
    omega
  · intro st request ho hn hnode hr
    subst ho hn
    cases hw : st.disk.writeFault request.Path with
    | some err =>
      rw [strReplace_write_fault st request content err hnode hr hc hw]
      exact ⟨(fun h => nomatch h),
        (fun h => writeError_ne_unexpected err (by simpa using h))⟩
    | none =>
      rw [strReplace_result st request content j hnode hr hw hc hj]
      exact ⟨(fun h => nomatch h), (fun h => nomatch h)⟩

/-- C26 for the content "a\nb\nc" with the match "b\nc" on the last lines and a
`new_str` "x" with fewer newlines: the bounds are 0 and 1 for two lines. -/
theorem snippet_bounds_safe_witness :
    strings.Count (bytes "a\nb\nc") (bytes "b\nc") = 1 ∧
    snippetRange (bytes "a\nb\nc") (bytes "b\nc") (bytes "x")
        (strings.Replace (bytes "a\nb\nc") (bytes "b\nc") (bytes "x") 1) = (0, 1) ∧
    (strings.Split (strings.Replace (bytes "a\nb\nc") (bytes "b\nc") (bytes "x") 1)
        (bytes "\n")).length = 2 ∧
    (snippetRange (bytes "a\nb\nc") (bytes "b\nc") (bytes "x")
        (strings.Replace (bytes "a\nb\nc") (bytes "b\nc") (bytes "x") 1)).2 <
      ((strings.Split (strings.Replace (bytes "a\nb\nc") (bytes "b\nc") (bytes "x") 1)
        (bytes "\n")).length : Int) :=
  ⟨by decide, by decide, by decide,
    (snippet_bounds_safe (bytes "a\nb\nc") (bytes "b\nc") (bytes "x") (by decide)).2.2.2.1⟩

/-! ## An empty old_str -/

/-- C27: on a regular file that can be read, `strReplace` with an empty `old_str`
fails with the "appears multiple times" error and changes nothing when the content is
not empty; when the content is empty and the file can be written it succeeds, the file
then holds exactly `new_str` and the empty content is appended to the history of the
path; so, the write working, it succeeds if and only if the content is empty. -/
theorem strReplace_empty_old (st : State) (request : Request) (content : GoString)
    (hnode : st.disk.nodes request.Path = some (Node.file content))
    (hr : st.disk.readFault request.Path = none)
    (hold : request.OldStr = []) :
    (content ≠ [] →
      (TextEditor.strReplace st request).1 = Result.error errMultiple ∧
      (TextEditor.strReplace st request).2 = st) ∧
    ((TextEditor.strReplace st request).1.isOk = true → content = []) ∧
    (st.disk.writeFault request.Path = none → content = [] →
      (TextEditor.strReplace st request).1.isOk = true ∧
      (TextEditor.strReplace st request).2.disk.nodes request.Path =
        some (Node.file request.NewStr) ∧
      (TextEditor.strReplace st request).2.editor.history request.Path =
        st.editor.history request.Path ++ [[]]) := by
  refine ⟨fun hne => ?_, fun hok => ?_, fun hw hc => ?_⟩
  · have h2 : 2 ≤ strings.Count content request.OldStr := by
      rw [hold, Count_nil_old]
      cases content with
      | nil => exact absurd rfl hne
      | cons c cs => have := utf8.RuneCountInString_pos c cs; omega
    rw [strReplace_count_many st request content hnode hr h2]
    exact ⟨rfl, rfl⟩
  · have h1 := (strReplace_ok_inv st request content hnode hok).2.1
    rw [hold] at h1
    exact (Count_nil_old_eq_one content).mp h1
  · subst hc
    have h1 : strings.Count [] request.OldStr = 1 := by rw [hold]; rfl
    have hj : strings.firstIndex request.OldStr [] = some 0 := by rw [hold]; rfl
    obtain ⟨resp, hrun⟩ := strReplace_run st request [] 0 hnode hr hw h1 hj
    rw [hrun]
    refine ⟨rfl, by simp [FileSystem.nodes_store], by simp [TextEditor.setHistory, TextEditor.history]⟩

/-- C27 for an empty file and the `new_str` "x", and for the file "ab". -/
theorem strReplace_empty_old_witness :
    (State.fresh (bytes "f") []).disk.nodes (bytes "f") = some (Node.file []) ∧
    (TextEditor.strReplace (State.fresh (bytes "f") [])
        { Path := bytes "f", OldStr := [], NewStr := bytes "x" }).2.disk.nodes (bytes "f") =
      some (Node.file (bytes "x")) ∧
    (State.fresh (bytes "f") (bytes "ab")).disk.nodes (bytes "f") =
      some (Node.file (bytes "ab")) ∧
    (TextEditor.strReplace (State.fresh (bytes "f") (bytes "ab"))
        { Path := bytes "f", OldStr := [], NewStr := bytes "x" }).1 =
      Result.error errMultiple :=
  ⟨rfl,
    ((strReplace_empty_old (State.fresh (bytes "f") [])
      { Path := bytes "f", OldStr := [], NewStr := bytes "x" } [] rfl rfl rfl).2.2 rfl rfl).2.1,
    rfl,
    ((strReplace_empty_old (State.fresh (bytes "f") (bytes "ab"))
      { Path := bytes "f", OldStr := [], NewStr := bytes "x" } (bytes "ab") rfl rfl rfl).1
      (by decide)).1⟩


/-! ## Other paths -/

/-- C21, as stated, fails for a second spelling of the path: "./f" and "f" lead to
one file, so a successful `write` on "./f" changes what the other path "f" names, from
the content "old" to the content "new". -/
theorem write_through_other_spelling_counterexample :
    bytes "f" ≠ bytes "./f" ∧
    ({ editor := newTextEditor, disk := FileSystem.dotSlash (bytes "f") (bytes "old") } :
        State).disk.nodes (bytes "f") = some (Node.file (bytes "old")) ∧
    (TextEditor.write
        { editor := newTextEditor, disk := FileSystem.dotSlash (bytes "f") (bytes "old") }
        { Path := bytes "./f", FileText := bytes "new" }).1.isOk = true ∧
    (TextEditor.write
        { editor := newTextEditor, disk := FileSystem.dotSlash (bytes "f") (bytes "old") }
        { Path := bytes "./f", FileText := bytes "new" }).2.disk.nodes (bytes "f") =
      some (Node.file (bytes "new")) ∧
    (TextEditor.write
        { editor := newTextEditor, disk := FileSystem.dotSlash (bytes "f") (bytes "old") }
        { Path := bytes "./f", FileText := bytes "new" }).2.disk.nodes (bytes "f") ≠
      ({ editor := newTextEditor, disk := FileSystem.dotSlash (bytes "f") (bytes "old") } :
        State).disk.nodes (bytes "f") := by
  refine ⟨by decide, by decide, by decide, by decide, by decide⟩

/-- C21, amended: whatever a request on a path `p` does, whether it succeeds or fails,
every other path `q` has after the call the history stack it had before, and names what
it named before unless `q` leads to the same file as `p`; this holds for `view`, `write`,
`strReplace`, `undoEdit` and for `editText` with any command, an invalid one included. -/
theorem other_paths_untouched (st : State) (request : Request) (q : GoString)
    (hq : q ≠ request.Path) :
    ((TextEditor.view st request).2.editor.fileHistory q = st.editor.fileHistory q ∧
      (TextEditor.write st request).2.editor.fileHistory q = st.editor.fileHistory q ∧
      (TextEditor.strReplace st request).2.editor.fileHistory q = st.editor.fileHistory q ∧
      (TextEditor.undoEdit st request).2.editor.fileHistory q = st.editor.fileHistory q ∧
      (TextEditor.editText st request).2.editor.fileHistory q = st.editor.fileHistory q) ∧
    (st.disk.target q ≠ st.disk.target request.Path →
      (TextEditor.view st request).2.disk.nodes q = st.disk.nodes q ∧
      (TextEditor.write st request).2.disk.nodes q = st.disk.nodes q ∧
      (TextEditor.strReplace st request).2.disk.nodes q = st.disk.nodes q ∧
      (TextEditor.undoEdit st request).2.disk.nodes q = st.disk.nodes q ∧
      (TextEditor.editText st request).2.disk.nodes q = st.disk.nodes q) :=
  ⟨⟨(view_frame st request q).2, (write_frame st request q).2 hq,
      (strReplace_frame st request q).2 hq, (undoEdit_frame st request q).2 hq,
      (editText_frame st request q).2 hq⟩,
    fun ht => ⟨(view_frame st request q).1, (write_frame st request q).1 ht,
      (strReplace_frame st request q).1 ht, (undoEdit_frame st request q).1 ht,
      (editText_frame st request q).1 ht⟩⟩

/-- C21 (amended) for a successful `write` on "f" next to a file "g" that holds "cd"
and has the history entry "c0": "g" still holds "cd" and still has that entry. -/
theorem other_paths_untouched_witness :
    bytes "g" ≠ bytes "f" ∧
    (TextEditor.write
        { editor := newTextEditor.setHistory (bytes "g") [bytes "c0"],
          disk := (FileSystem.single (bytes "f") (bytes "ab")).store (bytes "g") (bytes "cd") }
        { Path := bytes "f", FileText := bytes "xy" }).1.isOk = true ∧
    (TextEditor.write
        { editor := newTextEditor.setHistory (bytes "g") [bytes "c0"],
          disk := (FileSystem.single (bytes "f") (bytes "ab")).store (bytes "g") (bytes "cd") }
        { Path := bytes "f", FileText := bytes "xy" }).2.disk.nodes (bytes "f") =
      some (Node.file (bytes "xy")) ∧
    (TextEditor.write
        { editor := newTextEditor.setHistory (bytes "g") [bytes "c0"],
          disk := (FileSystem.single (bytes "f") (bytes "ab")).store (bytes "g") (bytes "cd") }
        { Path := bytes "f", FileText := bytes "xy" }).2.disk.nodes (bytes "g") =
      some (Node.file (bytes "cd")) ∧
    (TextEditor.write
        { editor := newTextEditor.setHistory (bytes "g") [bytes "c0"],
          disk := (FileSystem.single (bytes "f") (bytes "ab")).store (bytes "g") (bytes "cd") }
        { Path := bytes "f", FileText := bytes "xy" }).2.editor.fileHistory (bytes "g") =
      some [bytes "c0"] :=
  ⟨by decide, by decide, by decide,
    (((other_paths_untouched
      { editor := newTextEditor.setHistory (bytes "g") [bytes "c0"],
        disk := (FileSystem.single (bytes "f") (bytes "ab")).store (bytes "g") (bytes "cd") }
      { Path := bytes "f", FileText := bytes "xy" } (bytes "g") (by decide)).2
      (by decide)).2.1).trans (by decide),
    ((other_paths_untouched
      { editor := newTextEditor.setHistory (bytes "g") [bytes "c0"],
        disk := (FileSystem.single (bytes "f") (bytes "ab")).store (bytes "g") (bytes "cd") }
      { Path := bytes "f", FileText := bytes "xy" } (bytes "g") (by decide)).1.2.1).trans
      (by decide)⟩

/-! ## Writes over an existing file -/

set_option maxRecDepth 100000 in
/-- C22 at the setting of `TestConcurrentEdits`, the calls taken one after the other:
in a new editor, over a file that holds "Initial content", ten successful writes of "Content from goroutine 0" to "Content from goroutine 9", one
after the other, leave ten history entries, not nine; already the first of them leaves
one entry, not none. -/
theorem write_over_existing_pushes_every_time :
    (State.fresh (bytes "f") (bytes "Initial content")).disk.nodes (bytes "f") =
      some (Node.file (bytes "Initial content")) ∧
    (writeAll (bytes "f") (State.fresh (bytes "f") (bytes "Initial content"))
        [bytes "Content from goroutine 0", bytes "Content from goroutine 1",
         bytes "Content from goroutine 2", bytes "Content from goroutine 3",
         bytes "Content from goroutine 4", bytes "Content from goroutine 5",
         bytes "Content from goroutine 6", bytes "Content from goroutine 7",
         bytes "Content from goroutine 8", bytes "Content from goroutine 9"]).map
        (fun s => (s.editor.history (bytes "f")).length) = some 10 ∧
    (writeAll (bytes "f") (State.fresh (bytes "f") (bytes "Initial content"))
        [bytes "Content from goroutine 0"]).map
        (fun s => (s.editor.history (bytes "f")).length) = some 1 ∧
    (writeAll (bytes "f") (State.fresh (bytes "f") (bytes "Initial content"))
        [bytes "Content from goroutine 0"]).map
        (fun s => (s.editor.history (bytes "f")).length) ≠
      some ([bytes "Content from goroutine 0"].length - 1) := by
  refine ⟨rfl, by decide, by decide, by decide⟩

/-- Starting with an empty history for the path and a regular file with
a non-empty content at the path, after N successful `write` calls with non-empty texts,
one after the other, the history of the path has exactly N entries: the content the
file had at the start and every text but the last. -/
theorem write_over_existing_history_length (path : GoString) (st st1 : State)
    (content : GoString) (texts : List GoString)
    (hhist : st.editor.history path = [])
    (hnode : st.disk.nodes path = some (Node.file content))
    (hcontent : content ≠ [])
    (hne : ∀ x ∈ texts, x ≠ [])
    (hrun : writeAll path st texts = some st1) :
    st1.editor.history path = (content :: texts).dropLast ∧
    (st1.editor.history path).length = texts.length := by
  have hall : ∀ x ∈ (content :: texts).dropLast, x ≠ [] := by
    intro x hx
    rcases List.mem_cons.mp (List.dropLast_subset _ hx) with h | h
    · rw [h]; exact hcontent
    · exact hne x h
  have h := writeAll_spec path texts st st1 content hnode hall hrun
  rw [hhist, List.nil_append] at h
  exact ⟨h, by rw [h]; simp⟩

/-- The count of entries for a file holding "Initial content" and the two texts "one"
and "two": two entries. -/
theorem write_over_existing_history_length_witness :
    (State.fresh (bytes "f") (bytes "Initial content")).editor.history (bytes "f") = [] ∧
    (State.fresh (bytes "f") (bytes "Initial content")).disk.nodes (bytes "f") =
      some (Node.file (bytes "Initial content")) ∧
    ∃ st1, writeAll (bytes "f") (State.fresh (bytes "f") (bytes "Initial content"))
        [bytes "one", bytes "two"] = some st1 ∧
      st1.editor.history (bytes "f") = [bytes "Initial content", bytes "one"] ∧
      (st1.editor.history (bytes "f")).length = 2 :=
  ⟨rfl, rfl, _, rfl,
    write_over_existing_history_length (bytes "f")
      (State.fresh (bytes "f") (bytes "Initial content")) _ (bytes "Initial content")
      [bytes "one", bytes "two"] rfl rfl (by decide) (by decide) rfl⟩

/-! ## Two writes at the same time -/

/-- C23 for two calls of `write` on the path "f", with the texts "a" and "b", that
run at the same time. When the calls run one after the other over a file "I", the
history is what the file held and lost: "I", then "a". When both calls read the old
content before either of them writes, both succeed, the file held "I", then "a", then
"b", and the history is "I", "I": the content "a" is lost and "I" is there twice. When
nothing is at the path at the start, the same schedule lets the second call overwrite
the file "a" of the first, and the history stays empty. -/
theorem write_race_drops_state :
    (raceRun (bytes "f") [bytes "a", bytes "b"] (State.fresh (bytes "f") (bytes "I"))
        [0, 0, 0, 1, 1, 1]).st.editor.history (bytes "f") = [bytes "I", bytes "a"] ∧
    (raceRun (bytes "f") [bytes "a", bytes "b"] (State.fresh (bytes "f") (bytes "I"))
        [0, 0, 0, 1, 1, 1]).overwritten = [bytes "I", bytes "a"] ∧
    (raceRun (bytes "f") [bytes "a", bytes "b"] (State.fresh (bytes "f") (bytes "I"))
        [0, 1, 0, 1, 0, 1]).pcs =
      [WritePc.done (Result.ok { FileText := bytes "a", Message := msgWritten (bytes "f") }),
       WritePc.done (Result.ok { FileText := bytes "b", Message := msgWritten (bytes "f") })] ∧
    (raceRun (bytes "f") [bytes "a", bytes "b"] (State.fresh (bytes "f") (bytes "I"))
        [0, 1, 0, 1, 0, 1]).st.disk.nodes (bytes "f") = some (Node.file (bytes "b")) ∧
    (raceRun (bytes "f") [bytes "a", bytes "b"] (State.fresh (bytes "f") (bytes "I"))
        [0, 1, 0, 1, 0, 1]).overwritten = [bytes "I", bytes "a"] ∧
    (raceRun (bytes "f") [bytes "a", bytes "b"] (State.fresh (bytes "f") (bytes "I"))
        [0, 1, 0, 1, 0, 1]).st.editor.history (bytes "f") = [bytes "I", bytes "I"] ∧
    (raceRun (bytes "f") [bytes "a", bytes "b"] State.blank
        [0, 1, 0, 1, 0, 1]).overwritten = [bytes "a"] ∧
    (raceRun (bytes "f") [bytes "a", bytes "b"] State.blank
        [0, 1, 0, 1, 0, 1]).st.editor.history (bytes "f") = [] := by
  refine ⟨by decide, by decide, by decide, by decide, by decide, by decide, by decide,
    by decide⟩

end texteditor
